import Mathlib

/-!
# Verification of the goodreads-sync acquisition pipeline

Shallow embedding of the core of the `goodreads-sync-v2` repository:

* the fuzzy-match engine (`normalizeText`, `wordOverlap`, `isGoodMatch`
  from `src/index.js`),
* the SQLite-backed book store and its prepared statements
  (`src/db.js`: `getNextPending`, `incrementAttempts`, `markDownloaded`,
  `markFailed`, `upsertBookByGoodreadsId`, `countDownloadsToday`,
  `countUserDownloadsToday`, `getUsersForBook`),
* the queue-processing loop `processQueue` of `src/index.js`, with the
  external effects of one attempt (search result, downloaded file size,
  copy/cleanup success) supplied by an oracle, and
* the download integrity gate of `downloadBook`.

Timestamps are natural numbers (seconds); SQLite `date(t)` bucketing is
modelled by integer division by 86400.  Strings are processed with JS
regex semantics restricted to ASCII (`\w` = `[A-Za-z0-9_]`, `\s` = ASCII
whitespace), which covers all inputs reasoned about here.
-/

/-! ## JS character classes (ASCII fragments of `\w` and `\s`) -/

/-- ASCII fragment of the JS regex class `\s`. -/
def jsIsSpace (c : Char) : Bool :=
  c = ' ' || c = '\t' || c = '\n' || c = '\r' || c = '\x0b' || c = '\x0c'

/-- ASCII fragment of the JS regex class `\w` (`[A-Za-z0-9_]`). -/
def jsIsWordChar (c : Char) : Bool :=
  c.isAlphanum || c = '_'

/-- Drop everything up to and including the first `')'`; `none` when the
list has no `')'`.  Used to embed one step of `/\(.*?\)/g`. -/
def dropThroughParen : List Char → Option (List Char)
  | [] => none
  | c :: rest => if c = ')' then some rest else dropThroughParen rest

/-- Worker for `stripParens`; the fuel is an upper bound on the input
length, so the `0` case is never reached from `stripParens`. -/
def stripParensGo : Nat → List Char → List Char
  | 0, l => l
  | _, [] => []
  | fuel + 1, c :: rest =>
    if c = '(' then
      match dropThroughParen rest with
      | some rest2 => stripParensGo fuel rest2
      | none => c :: rest
    else c :: stripParensGo fuel rest

/-- Embeds `str.replace(/\(.*?\)/g, '')`: repeatedly delete the span from
a `'('` to the nearest following `')'`; a `'('` with no later `')'`
matches nothing and is kept. -/
def stripParens (l : List Char) : List Char :=
  stripParensGo l.length l

/-- Embeds `str.replace(/:\s*a novel$/i, '')` on an already lowercased
string: strip a trailing `"a novel"` preceded by optional whitespace and
a `':'`. -/
def stripSubtitle (l : List Char) : List Char :=
  let r := l.reverse
  if r.take 7 = ("a novel".toList).reverse then
    match (r.drop 7).dropWhile jsIsSpace with
    | ':' :: rest => rest.reverse
    | _ => l
  else l

/-- Worker for `collapseSpaces`; the fuel is an upper bound on the input
length, so the `0` case is never reached from `collapseSpaces`. -/
def collapseSpacesGo : Nat → List Char → List Char
  | 0, l => l
  | _, [] => []
  | fuel + 1, c :: rest =>
    if jsIsSpace c then ' ' :: collapseSpacesGo fuel (rest.dropWhile jsIsSpace)
    else c :: collapseSpacesGo fuel rest

/-- Embeds `str.replace(/\s+/g, ' ')`: collapse each whitespace run to a
single space. -/
def collapseSpaces (l : List Char) : List Char :=
  collapseSpacesGo l.length l

/-- Embeds JS `String.prototype.trim` (ASCII whitespace). -/
def trimChars (l : List Char) : List Char :=
  ((l.dropWhile jsIsSpace).reverse.dropWhile jsIsSpace).reverse

/-- Embeds `normalizeText` (src/index.js:281-290): lowercase, strip
parentheticals, strip a trailing `": a novel"`, remove punctuation
(`[^\w\s]`), collapse whitespace, trim. -/
def normalizeText (str : String) : String :=
  String.mk
    (trimChars
      (collapseSpaces
        ((stripSubtitle (stripParens (str.toList.map Char.toLower))).filter
          (fun c => jsIsWordChar c || jsIsSpace c))))

/-- Split a char list at each `' '`, keeping empty pieces
(JS `String.prototype.split(' ')`); `cur` is the current piece,
reversed. -/
def splitOnSpaceGo (cur : List Char) : List Char → List (List Char)
  | [] => [cur.reverse]
  | c :: rest =>
    if c = ' ' then cur.reverse :: splitOnSpaceGo [] rest
    else splitOnSpaceGo (c :: cur) rest

/-- Embeds JS `s.split(' ')`. -/
def jsSplitOnSpace (s : String) : List String :=
  (splitOnSpaceGo [] s.toList).map String.mk

/-- The words of the normalized string, in order, empty strings dropped
(JS `normalizeText(s).split(' ').filter(Boolean)`). -/
def wordsOf (s : String) : List String :=
  (jsSplitOnSpace (normalizeText s)).filter (fun w => w ≠ "")

/-- The word set of a string, as a duplicate-free list
(JS `new Set(...)`; only membership and size are relevant). -/
def wordSet (s : String) : List String :=
  (wordsOf s).dedup

/-- The fraction of `smaller`'s members found in `larger`
(`matches / smaller.size` of src/index.js:303-307, as an exact
rational). -/
def overlapFrac (smaller larger : List String) : ℚ :=
  mkRat (((smaller.filter (fun w => larger.contains w)).length : Int)) smaller.length

/-- Embeds `wordOverlap` (src/index.js:296-308): the fraction of the
smaller word set contained in the larger one; 0 when either is empty. -/
def wordOverlap (a b : String) : ℚ :=
  let wordsA := wordSet a
  let wordsB := wordSet b
  if wordsA.length = 0 ∨ wordsB.length = 0 then 0
  else if wordsA.length ≤ wordsB.length then overlapFrac wordsA wordsB
  else overlapFrac wordsB wordsA

/-- Embeds JS `String.prototype.includes` on char lists: `needle` occurs
contiguously inside `hay`. -/
def containsSub (needle : List Char) : List Char → Bool
  | [] => needle.isEmpty
  | c :: rest => needle.isPrefixOf (c :: rest) || containsSub needle rest

/-- Embeds `isGoodMatch` (src/index.js:317-341).  The expected author is
a string; JS truthiness makes `""` (and `null`) skip the author check. -/
def isGoodMatch (expectedTitle expectedAuthor resultTitle resultAuthor : String) : Bool :=
  let titleScore := wordOverlap expectedTitle resultTitle
  if titleScore < mkRat 7 10 then false
  else if expectedAuthor = "" then true
  else
    let expectedParts :=
      (jsSplitOnSpace (normalizeText expectedAuthor)).filter (fun w => w.length > 2)
    let resultAuthorNorm := normalizeText resultAuthor
    expectedParts.any (fun part => containsSub part.toList resultAuthorNorm.toList)

/-! ### Spec-side formulations of the fuzzy-match contracts.

These two definitions follow the wording of the specification (§4.2),
to be compared with the source-derived `wordOverlap` and `isGoodMatch`. -/

/-- Modelled from the spec's words: "tokenize both normalized strings
into word sets; let S = smaller set, L = larger; score = |S ∩ L| / |S|;
empty-set inputs score 0". -/
def scoreFrac (S L : Finset String) : ℚ :=
  ((S ∩ L).card : ℚ) / (S.card : ℚ)

/-- Modelled from the spec's words (continued): the score with S the
smaller of the two word sets. -/
def titleScoreSpec (a b : String) : ℚ :=
  let S0 : Finset String := (wordsOf a).toFinset
  let L0 : Finset String := (wordsOf b).toFinset
  if S0 = ∅ ∨ L0 = ∅ then 0
  else if S0.card ≤ L0.card then scoreFrac S0 L0
  else scoreFrac L0 S0

/-- Modelled from the spec's words: "require titleScore ≥ 0.70; if
expectedAuthor is present, require at least one token of length > 2 from
the normalized expected author to appear as a substring of the
normalized candidate author". -/
def isGoodMatchSpec (expectedTitle expectedAuthor resultTitle resultAuthor : String) : Bool :=
  decide (mkRat 7 10 ≤ wordOverlap expectedTitle resultTitle) &&
    (if expectedAuthor = "" then true
     else (jsSplitOnSpace (normalizeText expectedAuthor)).any
       (fun w => w.length > 2 && containsSub w.toList (normalizeText resultAuthor).toList))


/-! ## Data model (src/db.js schema) -/

/-- A row of the `books` table (src/db.js).  `downloaded_at` is set only
by `markDownloaded`; `updated_at` is bumped by every mutation. -/
structure Book where
  id : Nat
  goodreads_book_id : Option String
  isbn : Option String
  title : Option String
  author : Option String
  status : String
  attempts : Nat
  file_path : Option String
  added_at : Nat
  updated_at : Nat
  downloaded_at : Option Nat
deriving Repr, DecidableEq

/-- A row of the `users` table (a Destination in the spec's terms). -/
structure User where
  id : Nat
  name : String
  goodreads_id : String
  download_path : String
  email : Option String
deriving Repr, DecidableEq

/-- The persistent store: `users`, `books` and the `user_books`
assignment pairs `(user_id, book_id)`. -/
structure Store where
  users : List User
  books : List Book
  user_books : List (Nat × Nat)
deriving Repr, DecidableEq

/-- The constant `MAX_ATTEMPTS` (src/config.js, not configurable). -/
def MAX_ATTEMPTS : Nat := 5

/-- Default `MAX_DOWNLOADS_PER_DAY` (src/config.js). -/
def MAX_DOWNLOADS_PER_DAY : Nat := 50

/-- Default `MAX_DOWNLOADS_PER_USER_PER_DAY` (src/config.js). -/
def MAX_DOWNLOADS_PER_USER_PER_DAY : Nat := 10

/-- SQLite `date(t)` bucketing of a timestamp into a calendar day. -/
def dayOf (t : Nat) : Nat := t / 86400

/-- Whether a book counts towards today's download totals:
`status = 'downloaded' AND date(downloaded_at) = date('now')`
(a NULL `downloaded_at` never matches). -/
def isCountedToday (b : Book) (now : Nat) : Bool :=
  b.status = "downloaded" &&
    (match b.downloaded_at with
     | some d => dayOf d = dayOf now
     | none => false)

/-- Embeds `stmts.countDownloadsToday` (src/db.js). -/
def countDownloadsToday (s : Store) (now : Nat) : Nat :=
  s.books.countP (fun b => isCountedToday b now)

/-- Embeds `stmts.countUserDownloadsToday` (src/db.js): downloaded-today
books joined through `user_books` to the given user. -/
def countUserDownloadsToday (s : Store) (uid now : Nat) : Nat :=
  s.books.countP (fun b => isCountedToday b now && s.user_books.contains (uid, b.id))

/-- Embeds `stmts.getUsersForBook` (src/db.js). -/
def getUsersForBook (s : Store) (bid : Nat) : List User :=
  s.users.filter (fun u => s.user_books.contains (u.id, bid))

/-- The WHERE clause of `getNextPending` (src/db.js:128-134), extended
with the `id NOT IN (...)` exclusion used at src/index.js:153-156. -/
def pendingOk (maxA : Nat) (excl : List Nat) (b : Book) : Bool :=
  b.status = "pending" && b.attempts < maxA && !(excl.contains b.id)

/-- The clause `ORDER BY attempts ASC LIMIT 1` over a scan: the first row holding
the minimal attempt count. -/
def selectMin : List Book → Option Book
  | [] => none
  | b :: rest =>
    match selectMin rest with
    | none => some b
    | some m => if m.attempts < b.attempts then some m else some b

/-- Embeds `stmts.getNextPending` (src/db.js) together with the
skipped-book exclusion variant (src/index.js:153-156): the pending book
with the fewest attempts, excluding exhausted and skipped books. -/
def getNextPendingExcl (s : Store) (maxA : Nat) (excl : List Nat) : Option Book :=
  selectMin (s.books.filter (pendingOk maxA excl))

/-- Apply `f` to every book with the given id (UPDATE ... WHERE id = ?). -/
def updateBook (s : Store) (bid : Nat) (f : Book → Book) : Store :=
  { s with books := s.books.map (fun b => if b.id = bid then f b else b) }

/-- The SET clause of `incrementAttempts`:
`attempts = attempts + 1, updated_at = CURRENT_TIMESTAMP`. -/
def bumpAttempt (now : Nat) (b : Book) : Book :=
  { b with attempts := b.attempts + 1, updated_at := now }

/-- The SET clause of `markDownloaded`: `status = 'downloaded',
file_path = ?, downloaded_at = CURRENT_TIMESTAMP, updated_at = ...`. -/
def setDownloaded (fname : String) (now : Nat) (b : Book) : Book :=
  { b with status := "downloaded", file_path := some fname,
           downloaded_at := some now, updated_at := now }

/-- The SET clause of `markFailed`: `status = 'failed', updated_at = ...`. -/
def setFailed (now : Nat) (b : Book) : Book :=
  { b with status := "failed", updated_at := now }

/-- Embeds `stmts.incrementAttempts` (src/db.js). -/
def incrementAttempts (s : Store) (bid now : Nat) : Store :=
  updateBook s bid (bumpAttempt now)

/-- Embeds `stmts.markDownloaded` (src/db.js): sets status, file name,
`downloaded_at` and `updated_at`. -/
def markDownloaded (s : Store) (fname : String) (bid now : Nat) : Store :=
  updateBook s bid (setDownloaded fname now)

/-- Embeds `stmts.markFailed` (src/db.js). -/
def markFailed (s : Store) (bid now : Nat) : Store :=
  updateBook s bid (setFailed now)

/-- AUTOINCREMENT id for an inserted row. -/
def freshBookId (s : Store) : Nat :=
  (s.books.map (fun b => b.id)).foldr max 0 + 1

/-- Embeds `stmts.upsertBookByGoodreadsId` (src/db.js:117-125):
`INSERT ... ON CONFLICT(goodreads_book_id) DO UPDATE SET
field = COALESCE(excluded.field, books.field), updated_at = now`. -/
def upsertBookByGoodreadsId (s : Store) (gid : String)
    (isbn title author : Option String) (now : Nat) : Store :=
  if s.books.any (fun b => b.goodreads_book_id = some gid) then
    { s with books := s.books.map (fun b =>
        if b.goodreads_book_id = some gid then
          { b with isbn := isbn.orElse (fun _ => b.isbn),
                   title := title.orElse (fun _ => b.title),
                   author := author.orElse (fun _ => b.author),
                   updated_at := now }
        else b) }
  else
    { s with books := s.books ++
        [{ id := freshBookId s, goodreads_book_id := some gid, isbn := isbn,
           title := title, author := author, status := "pending", attempts := 0,
           file_path := none, added_at := now, updated_at := now,
           downloaded_at := none }] }

/-- Primary-key well-formedness: book ids and user ids are unique
(SQLite `INTEGER PRIMARY KEY`). -/
def StoreWF (s : Store) : Prop :=
  (s.books.map (fun b => b.id)).Nodup ∧ (s.users.map (fun u => u.id)).Nodup

instance (s : Store) : Decidable (StoreWF s) := by
  unfold StoreWF; infer_instance

/-- The Book invariant of spec §3: `attempts ≤ MAX_ATTEMPTS`;
`failed ⇒ attempts = MAX_ATTEMPTS`; `downloaded ⇒ downloaded_at ≠ null`. -/
def BookInv (b : Book) : Prop :=
  b.attempts ≤ MAX_ATTEMPTS ∧
    (b.status = "failed" → b.attempts = MAX_ATTEMPTS) ∧
    (b.status = "downloaded" → b.downloaded_at ≠ none)

instance (b : Book) : Decidable (BookInv b) := by
  unfold BookInv; infer_instance

/-- All books of the store satisfy the Book invariant. -/
def StoreInv (s : Store) : Prop := ∀ b ∈ s.books, BookInv b

instance (s : Store) : Decidable (StoreInv s) :=
  List.decidableBAll _ _

/-- Look a book up by id (`SELECT * FROM books WHERE id = ?`). -/
def bookById (s : Store) (bid : Nat) : Option Book :=
  s.books.find? (fun b => b.id = bid)

/-! ## Queue processing (processQueue, src/index.js:108-273)

The externally determined effects of one processed item — whether the
search found a match, whether the network transfer succeeded and how
large the resulting file is, whether the fan-out copies and the temp
cleanup succeed — are supplied by an oracle indexed by the number of
items processed so far. -/

/-- Result of the search + transfer part of one attempt. -/
inductive Fetch where
  /-- `findBookOnAnna` returned null (all mirrors exhausted). -/
  | searchMiss
  /-- The search or the transfer threw (network error, timeout, ...). -/
  | netError
  /-- A file of the given byte size arrived in the temp area. -/
  | file (size : Nat)
deriving Repr, DecidableEq

/-- Oracle entry for one processed item. -/
structure Outcome where
  fetch : Fetch
  /-- Every `copyFileSync` into the destination folders succeeds. -/
  copyOk : Bool
  /-- The `unlinkSync` of the temp file succeeds (failure is only logged). -/
  cleanupOk : Bool
deriving Repr, DecidableEq

/-- Embeds `sanitizeFilename` (src/utils.js): strip illegal path
characters, collapse whitespace, trim, cap at 200 characters. -/
def sanitizeFilename (name : String) : String :=
  String.mk
    ((trimChars (collapseSpaces
        (name.toList.filter (fun c =>
          !(c = '<' || c = '>' || c = ':' || c = '"' || c = '/' ||
            c = '\\' || c = '|' || c = '?' || c = '*'))))).take 200)

/-- JS `x || 'Unknown'` for a nullable string field. -/
def orUnknown : Option String → String
  | some s => if s = "" then "Unknown" else s
  | none => "Unknown"

/-- The copied file's name (src/index.js:200-201).  The extension
detection of `getFileExtension` depends on HTTP response headers that
are outside this model; the default `.epub` stands in for it. -/
def filenameOf (b : Book) : String :=
  sanitizeFilename (orUnknown b.author ++ " - " ++ orUnknown b.title) ++ ".epub"

/-- The search term of src/index.js:174-175: the title with
parentheticals removed, joined with the author, both dropped when
falsy. -/
def searchTermOf (b : Book) : String :=
  let cleanTitle := String.mk (trimChars (stripParens (b.title.getD "").toList))
  let parts := [cleanTitle, b.author.getD ""].filter (fun x => x ≠ "")
  String.mk (trimChars (String.intercalate " " parts).toList)

/-- Embeds the end of `downloadBook` (src/index.js:694-704) as an
operation on the set of temp files: the freshly written `tempPath` is
rejected and deleted when its size is under 1024 bytes, otherwise it is
returned as the download result. -/
def downloadBook (tempFiles : List String) (tempPath : String) (size : Nat) :
    Except String String × List String :=
  let files := if tempFiles.contains tempPath then tempFiles else tempPath :: tempFiles
  if size < 1024 then
    (Except.error ("Downloaded file too small (" ++ toString size ++ " bytes), likely an error page"),
     files.erase tempPath)
  else (Except.ok tempPath, files)

/-- Whether the try block of one queue item (src/index.js:180-245) runs
to completion: the search term is non-empty, the search found a match,
the transfer produced a file of at least 1024 bytes, and every
destination copy succeeded.  The temp-file cleanup (src/index.js:216-220)
does not participate: its failure is only logged. -/
def attemptSucceeds (b : Book) (o : Outcome) : Bool :=
  !(searchTermOf b = "") &&
    (match o.fetch with
     | Fetch.file n => decide (1024 ≤ n)
     | _ => false) &&
    o.copyOk

/-- The mutable state of one `processQueue` invocation. -/
structure QState where
  store : Store
  processed : Nat
  succeeded : Nat
  failed : Nat
  skippedLimit : Nat
  skippedBookIds : List Nat
  rateLimited : List Nat
deriving Repr, DecidableEq

/-- Embeds the per-user limit refresh after a success
(src/index.js:236-245): re-count each user that just received the file
and add the ones now at their cap. -/
def refreshRateLimited (s : Store) (uCap now : Nat) (eligible : List User)
    (rl : List Nat) : List Nat :=
  eligible.foldl (fun acc u =>
    if !(acc.contains u.id) && decide (uCap ≤ countUserDownloadsToday s u.id now) then
      acc ++ [u.id]
    else acc) rl

/-- One processed queue item (the body of the try/catch at
src/index.js:180-259): increment attempts first, then either mark the
book downloaded and refresh the per-user limits, or record the failure,
marking the book failed once the attempt budget is exhausted. -/
def runItem (uCap now : Nat) (job : Book) (eligible : List User) (o : Outcome)
    (st : QState) : QState :=
  let s1 := incrementAttempts st.store job.id now
  if attemptSucceeds job o then
    let s2 := markDownloaded s1 (filenameOf job) job.id now
    let rl2 := refreshRateLimited s2 uCap now eligible st.rateLimited
    { st with store := s2, processed := st.processed + 1,
              succeeded := st.succeeded + 1, rateLimited := rl2 }
  else
    let s2 := if MAX_ATTEMPTS ≤ job.attempts + 1 then markFailed s1 job.id now else s1
    { st with store := s2, processed := st.processed + 1, failed := st.failed + 1 }

/-- The `while (true)` loop of `processQueue` (src/index.js:140-264),
with an explicit fuel bound on the number of iterations.  Each
iteration re-checks the global daily cap, selects the next pending book
outside the skipped set, skips it without an attempt when every linked
user is rate-limited, and otherwise processes it. -/
def queueLoop (gCap uCap : Nat) (env : Nat → Outcome) (now : Nat) :
    Nat → QState → QState
  | 0, st => st
  | fuel + 1, st =>
    if gCap ≤ countDownloadsToday st.store now then st
    else
      match getNextPendingExcl st.store MAX_ATTEMPTS st.skippedBookIds with
      | none => st
      | some job =>
        let eligible := (getUsersForBook st.store job.id).filter
          (fun u => !(st.rateLimited.contains u.id))
        if eligible.isEmpty then
          queueLoop gCap uCap env now fuel
            { st with skippedBookIds := st.skippedBookIds ++ [job.id],
                      skippedLimit := st.skippedLimit + 1 }
        else
          queueLoop gCap uCap env now fuel
            (runItem uCap now job eligible (env st.processed) st)

/-- The loop state at entry: counters zero and the rate-limited user set
computed once upfront (src/index.js:130-138). -/
def initQState (s : Store) (uCap now : Nat) : QState :=
  { store := s, processed := 0, succeeded := 0, failed := 0, skippedLimit := 0,
    skippedBookIds := [],
    rateLimited :=
      (s.users.filter (fun u => decide (uCap ≤ countUserDownloadsToday s u.id now))).map
        (fun u => u.id) }

/-- Embeds `processQueue` (src/index.js:108-273): return immediately
when the global daily cap is already met (src/index.js:117-121),
otherwise run the loop. -/
def processQueue (gCap uCap : Nat) (env : Nat → Outcome) (now fuel : Nat)
    (s : Store) : QState :=
  if gCap ≤ countDownloadsToday s now then
    { store := s, processed := 0, succeeded := 0, failed := 0, skippedLimit := 0,
      skippedBookIds := [], rateLimited := [] }
  else queueLoop gCap uCap env now fuel (initQState s uCap now)

/-! ## Concrete fixtures used by witnesses and counterexamples -/

/-- A destination user with spare quota. -/
def aliceUser : User :=
  { id := 1, name := "Alice", goodreads_id := "104", download_path := "/dl/alice",
    email := none }

/-- A pending book assigned to `aliceUser`. -/
def duneBook : Book :=
  { id := 1, goodreads_book_id := some "g1", isbn := none, title := some "Dune",
    author := some "Frank Herbert", status := "pending", attempts := 0,
    file_path := none, added_at := 0, updated_at := 0, downloaded_at := none }

/-- One user, one pending book, one assignment. -/
def store1 : Store :=
  { users := [aliceUser], books := [duneBook], user_books := [(1, 1)] }

/-- Oracle: the search and the transfer succeed with a 5 MB file, but a
destination copy fails. -/
def envCopyFail : Nat → Outcome :=
  fun _ => { fetch := Fetch.file 5000000, copyOk := false, cleanupOk := true }

/-- Oracle: everything succeeds with a 5 MB file. -/
def envAllOk : Nat → Outcome :=
  fun _ => { fetch := Fetch.file 5000000, copyOk := true, cleanupOk := true }

/-! ## Boundary fixtures for the title-score threshold -/

/-- A list of `n` distinct words with a common stem. -/
def wordsD (pre : String) (n : Nat) : List String :=
  (List.range n).map (fun i => pre ++ toString i)

/-- Ten distinct words. -/
def title10 : String := String.intercalate " " (wordsD "w" 10)

/-- Ten distinct words sharing exactly seven with `title10`:
overlap 7/10 = 0.70. -/
def title10b : String := String.intercalate " " (wordsD "w" 7 ++ wordsD "x" 3)

/-- One hundred distinct words. -/
def title100 : String := String.intercalate " " (wordsD "w" 100)

/-- One hundred distinct words sharing exactly sixty-nine with
`title100`: overlap 69/100 = 0.69. -/
def title100b : String := String.intercalate " " (wordsD "w" 69 ++ wordsD "x" 31)

/-- The rows holding a given dedup key. -/
def booksWithGid (s : Store) (gid : String) : List Book :=
  s.books.filter (fun b => b.goodreads_book_id = some gid)

/-- A book already downloaded earlier today (timestamp 1000). -/
def doneBook : Book :=
  { id := 2, goodreads_book_id := some "g9", isbn := none, title := some "Emma",
    author := some "Jane Austen", status := "downloaded", attempts := 1,
    file_path := some "Jane Austen - Emma.epub", added_at := 0, updated_at := 1000,
    downloaded_at := some 1000 }

/-- One user, one downloaded book, assigned. -/
def store2 : Store :=
  { users := [aliceUser], books := [doneBook], user_books := [(1, 2)] }

/-- The copy-failure outcome used by witnesses. -/
def copyFailOutcome : Outcome :=
  { fetch := Fetch.file 5000000, copyOk := false, cleanupOk := true }

/-- An initial loop state over `store1`. -/
def qstate1 : QState :=
  { store := store1, processed := 0, succeeded := 0, failed := 0, skippedLimit := 0,
    skippedBookIds := [], rateLimited := [] }

/-- How one queue cycle may change a stored book: the id is stable,
attempts never decrease, and a book that is terminal or has exhausted
its attempt budget is untouched. -/
def bookEvolves (b b2 : Book) : Prop :=
  b2.id = b.id ∧ b.attempts ≤ b2.attempts ∧
    (b.status ≠ "pending" → b2 = b) ∧
    (MAX_ATTEMPTS ≤ b.attempts → b2 = b)


/-! ## Generic list helpers -/

theorem list_contains_iff {α : Type} [BEq α] [LawfulBEq α] (l : List α) (a : α) :
    l.contains a = true ↔ a ∈ l := by
  simp [List.contains, List.elem_iff]

theorem wordSet_toFinset (s : String) : (wordSet s).toFinset = (wordsOf s).toFinset := by
  ext w
  simp [wordSet, List.mem_toFinset, List.mem_dedup]

theorem wordSet_length_eq_card (s : String) :
    (wordSet s).length = (wordsOf s).toFinset.card := by
  rw [List.card_toFinset]
  rfl

theorem filter_contains_card (A B : List String) (hA : A.Nodup) :
    (A.filter (fun w => B.contains w)).length = (A.toFinset ∩ B.toFinset).card := by
  have h1 : (A.filter (fun w => B.contains w)).Nodup := hA.filter _
  rw [← List.toFinset_card_of_nodup h1, List.toFinset_filter]
  congr 1
  ext w
  simp only [Finset.mem_filter, Finset.mem_inter, List.mem_toFinset, list_contains_iff]

theorem overlapFrac_eq_scoreFrac (A B : List String) (hA : A.Nodup) :
    overlapFrac A B = scoreFrac A.toFinset B.toFinset := by
  unfold overlapFrac scoreFrac
  rw [Rat.mkRat_eq_div, filter_contains_card _ _ hA, List.toFinset_card_of_nodup hA]
  push_cast
  ring

theorem wordOverlap_eq_titleScoreSpec (a b : String) :
    wordOverlap a b = titleScoreSpec a b := by
  have hA := wordSet_length_eq_card a
  have hB := wordSet_length_eq_card b
  have hAnd : (wordSet a).Nodup := List.nodup_dedup _
  have hBnd : (wordSet b).Nodup := List.nodup_dedup _
  have hAT := wordSet_toFinset a
  have hBT := wordSet_toFinset b
  simp only [wordOverlap, titleScoreSpec]
  by_cases h0 : (wordSet a).length = 0 ∨ (wordSet b).length = 0
  · have h0' : (wordsOf a).toFinset = ∅ ∨ (wordsOf b).toFinset = ∅ := by
      rcases h0 with h | h
      · exact Or.inl (by rw [← Finset.card_eq_zero, ← hA, h])
      · exact Or.inr (by rw [← Finset.card_eq_zero, ← hB, h])
    rw [if_pos h0, if_pos h0']
  · have h0' : ¬((wordsOf a).toFinset = ∅ ∨ (wordsOf b).toFinset = ∅) := by
      intro h
      apply h0
      rcases h with h | h
      · exact Or.inl (by rw [hA, h, Finset.card_empty])
      · exact Or.inr (by rw [hB, h, Finset.card_empty])
    rw [if_neg h0, if_neg h0']
    by_cases hle : (wordSet a).length ≤ (wordSet b).length
    · have hle' : (wordsOf a).toFinset.card ≤ (wordsOf b).toFinset.card := by
        rw [← hA, ← hB]; exact hle
      rw [if_pos hle, if_pos hle', overlapFrac_eq_scoreFrac _ _ hAnd, hAT, hBT]
    · have hle' : ¬((wordsOf a).toFinset.card ≤ (wordsOf b).toFinset.card) := by
        rw [← hA, ← hB]; exact hle
      rw [if_neg hle, if_neg hle', overlapFrac_eq_scoreFrac _ _ hBnd, hAT, hBT]

theorem isGoodMatch_eq_isGoodMatchSpec (et ea rt ra : String) :
    isGoodMatch et ea rt ra = isGoodMatchSpec et ea rt ra := by
  simp only [isGoodMatch, isGoodMatchSpec]
  by_cases h : wordOverlap et rt < mkRat 7 10
  · simp [h, not_le.mpr h]
  · simp only [if_neg h, decide_eq_true (not_lt.mp h), Bool.true_and]
    by_cases hea : ea = ""
    · simp [hea]
    · simp only [if_neg hea, List.any_filter]

/-- C5: `wordOverlap` (the spec's `titleScore`) computes |S ∩ L| / |S|
over the normalized word sets, S the smaller, 0 on empty inputs; the
series-annotation example normalizes to "the culture" on both sides and
scores exactly 1. -/
theorem c5_titleScore_spec :
    (∀ a b, wordOverlap a b = titleScoreSpec a b) ∧
    normalizeText "The Culture (Culture, #3)" = "the culture" ∧
    normalizeText "The Culture" = "the culture" ∧
    wordOverlap "The Culture (Culture, #3)" "The Culture" = 1 :=
  ⟨wordOverlap_eq_titleScoreSpec, by decide, by decide, by decide⟩

set_option maxRecDepth 100000 in
set_option maxHeartbeats 4000000 in
/-- C6: `isGoodMatch` accepts exactly when the title score reaches 0.70
and, when an expected author is present, some author token of length
greater than 2 occurs as a substring of the normalized candidate author;
a score of exactly 0.70 is accepted, 0.69 is rejected, and an absent
expected author makes the title check alone decide. -/
theorem c6_isGoodMatch_spec :
    (∀ et ea rt ra, isGoodMatch et ea rt ra = isGoodMatchSpec et ea rt ra) ∧
    (wordOverlap title10 title10b = mkRat 7 10 ∧
      isGoodMatch title10 "" title10b "" = true) ∧
    (wordOverlap title100 title100b = mkRat 69 100 ∧
      isGoodMatch title100 "" title100b "" = false) ∧
    (∀ et rt ra ra2, isGoodMatch et "" rt ra = isGoodMatch et "" rt ra2 ∧
      isGoodMatch et "" rt ra = !(decide (wordOverlap et rt < mkRat 7 10))) := by
  refine ⟨isGoodMatch_eq_isGoodMatchSpec, ⟨by decide, by decide⟩, ⟨by decide, by decide⟩, ?_⟩
  intro et rt ra ra2
  constructor
  · rfl
  · simp only [isGoodMatch]
    by_cases h : wordOverlap et rt < mkRat 7 10
    · simp [h]
    · simp [h]

/-! ## Ingestion upsert (C7, C8) -/

theorem forall2_map_self {R : Book → Book → Prop} (g : Book → Book) :
    ∀ l : List Book, (∀ b ∈ l, R b (g b)) → List.Forall₂ R l (l.map g) := by
  intro l
  induction l with
  | nil => intro _; simp
  | cons b rest ih =>
    intro h
    simp only [List.map_cons]
    exact List.Forall₂.cons (h b (by simp)) (ih (fun x hx => h x (by simp [hx])))

theorem upsert_take_forall2 (s2 : Store) (gid2 : String) (i t a : Option String) (now : Nat) :
    List.Forall₂ (fun b b2 =>
        b2.goodreads_book_id = b.goodreads_book_id ∧
        (b.title ≠ none → b2.title ≠ none) ∧
        (b.author ≠ none → b2.author ≠ none) ∧
        (b.isbn ≠ none → b2.isbn ≠ none))
      s2.books ((upsertBookByGoodreadsId s2 gid2 i t a now).books.take s2.books.length) := by
  unfold upsertBookByGoodreadsId
  by_cases hc : s2.books.any (fun b => b.goodreads_book_id = some gid2) = true
  · rw [if_pos hc]
    simp only []
    rw [show s2.books.length = (s2.books.map (fun b =>
        if b.goodreads_book_id = some gid2 then
          { b with isbn := i.orElse (fun _ => b.isbn),
                   title := t.orElse (fun _ => b.title),
                   author := a.orElse (fun _ => b.author),
                   updated_at := now }
        else b)).length from (List.length_map _ _).symm, List.take_length]
    apply forall2_map_self
    intro b _
    by_cases hb : b.goodreads_book_id = some gid2
    · simp only [if_pos hb]
      refine ⟨by trivial, ?_, ?_, ?_⟩
      · intro h
        cases t with
        | some v => simp [Option.orElse]
        | none => simpa [Option.orElse] using h
      · intro h
        cases a with
        | some v => simp [Option.orElse]
        | none => simpa [Option.orElse] using h
      · intro h
        cases i with
        | some v => simp [Option.orElse]
        | none => simpa [Option.orElse] using h
    · simp only [if_neg hb]
      exact ⟨by trivial, fun h => h, fun h => h, fun h => h⟩
  · rw [if_neg hc]
    simp only [List.take_left]
    rw [List.forall₂_same]
    intro b _
    exact ⟨by trivial, fun h => h, fun h => h, fun h => h⟩

theorem map_ite_id (g : Book → Book) (p : Book → Prop) [DecidablePred p] :
    ∀ l : List Book, (∀ b ∈ l, ¬ p b) → (l.map (fun b => if p b then g b else b)) = l := by
  intro l
  induction l with
  | nil => intro _; rfl
  | cons c rest ih =>
    intro hl
    simp only [List.map_cons, if_neg (hl c (by simp))]
    rw [ih (fun x hx => hl x (by simp [hx]))]

/-- C7: the ingestion upsert is keyed on the external dedup key and
COALESCE-preserves non-null fields: upserting (title="X", author=null)
then (title=null, author="Y") under one fresh key leaves exactly one row
with title "X" and author "Y"; only one row is ever created, and no
upsert reverts a non-null field to null. -/
theorem c7_upsert_idempotent_merge (s : Store) (gid : String) (now1 now2 : Nat)
    (h : booksWithGid s gid = []) :
    booksWithGid
        (upsertBookByGoodreadsId (upsertBookByGoodreadsId s gid none (some "X") none now1)
          gid none none (some "Y") now2) gid =
      [{ id := freshBookId s, goodreads_book_id := some gid, isbn := none,
         title := some "X", author := some "Y", status := "pending", attempts := 0,
         file_path := none, added_at := now1, updated_at := now2, downloaded_at := none }] ∧
    (upsertBookByGoodreadsId (upsertBookByGoodreadsId s gid none (some "X") none now1)
        gid none none (some "Y") now2).books.length = s.books.length + 1 ∧
    (∀ (s2 : Store) (gid2 : String) (i t a : Option String) (now : Nat),
      List.Forall₂ (fun b b2 =>
          b2.goodreads_book_id = b.goodreads_book_id ∧
          (b.title ≠ none → b2.title ≠ none) ∧
          (b.author ≠ none → b2.author ≠ none) ∧
          (b.isbn ≠ none → b2.isbn ≠ none))
        s2.books ((upsertBookByGoodreadsId s2 gid2 i t a now).books.take s2.books.length)) := by
  have hnone : ∀ b ∈ s.books, ¬(b.goodreads_book_id = some gid) := by
    intro b hb hcontra
    have := List.filter_eq_nil_iff.mp h b hb
    simp [hcontra] at this
  have hany1 : ¬(s.books.any (fun b => b.goodreads_book_id = some gid) = true) := by
    simp only [List.any_eq_true]
    rintro ⟨x, hx, hpx⟩
    exact hnone x hx (by simpa using hpx)
  have h1 : upsertBookByGoodreadsId s gid none (some "X") none now1 =
      { s with books := s.books ++
        [{ id := freshBookId s, goodreads_book_id := some gid, isbn := none,
           title := some "X", author := none, status := "pending", attempts := 0,
           file_path := none, added_at := now1, updated_at := now1,
           downloaded_at := none }] } := by
    unfold upsertBookByGoodreadsId
    rw [if_neg hany1]
  rw [h1]
  have hany2 : ((s.books ++
      [{ id := freshBookId s, goodreads_book_id := some gid, isbn := none,
         title := some "X", author := none, status := "pending", attempts := 0,
         file_path := none, added_at := now1, updated_at := now1,
         downloaded_at := none }] : List Book).any
        (fun b => b.goodreads_book_id = some gid) = true) := by
    simp
  refine ⟨?_, ?_, fun s2 gid2 i t a now => upsert_take_forall2 s2 gid2 i t a now⟩
  · show booksWithGid (upsertBookByGoodreadsId
      { s with books := s.books ++ [_] } gid none none (some "Y") now2) gid = _
    unfold upsertBookByGoodreadsId
    rw [if_pos hany2]
    unfold booksWithGid
    simp only [List.map_append, List.filter_append]
    rw [map_ite_id (fun b =>
          { b with isbn := Option.orElse none (fun _ => b.isbn),
                   title := Option.orElse none (fun _ => b.title),
                   author := Option.orElse (some "Y") (fun _ => b.author),
                   updated_at := now2 })
        (fun b => b.goodreads_book_id = some gid) s.books hnone]
    have hfil : s.books.filter (fun b => b.goodreads_book_id = some gid) = [] := h
    rw [hfil]
    simp [Option.orElse]
  · unfold upsertBookByGoodreadsId
    rw [if_pos hany2]
    simp

/-- C8: the daily download counts are computed solely from `status` and
`downloaded_at`, which the ingestion upsert never touches: an upsert of
an already-downloaded book bumps `updated_at` of the conflicting row but
leaves `downloaded_at`, `status` and hence both daily counts unchanged. -/
theorem c8_upsert_preserves_counts (s : Store) (gid : String) (i t a : Option String)
    (now now2 uid : Nat) (b : Book) (hb : b ∈ s.books)
    (hg : b.goodreads_book_id = some gid) (hs : b.status = "downloaded") :
    countDownloadsToday (upsertBookByGoodreadsId s gid i t a now) now2 =
      countDownloadsToday s now2 ∧
    countUserDownloadsToday (upsertBookByGoodreadsId s gid i t a now) uid now2 =
      countUserDownloadsToday s uid now2 ∧
    List.Forall₂ (fun b0 b2 => b2.downloaded_at = b0.downloaded_at ∧
        b2.status = b0.status ∧ b2.id = b0.id)
      s.books ((upsertBookByGoodreadsId s gid i t a now).books.take s.books.length) ∧
    (∀ b2 ∈ (upsertBookByGoodreadsId s gid i t a now).books,
      b2.goodreads_book_id = some gid → b2.updated_at = now) := by
  have hany : (s.books.any (fun x => x.goodreads_book_id = some gid)) = true := by
    rw [List.any_eq_true]
    exact ⟨b, hb, by simp [hg]⟩
  have hup : upsertBookByGoodreadsId s gid i t a now =
      { s with books := s.books.map (fun x =>
          if x.goodreads_book_id = some gid then
            { x with isbn := i.orElse (fun _ => x.isbn),
                     title := t.orElse (fun _ => x.title),
                     author := a.orElse (fun _ => x.author),
                     updated_at := now }
          else x) } := by
    unfold upsertBookByGoodreadsId
    rw [if_pos hany]
  refine ⟨?_, ?_, ?_, ?_⟩
  · rw [hup]
    unfold countDownloadsToday
    simp only [List.countP_map]
    apply List.countP_congr
    intro x _
    by_cases hx : x.goodreads_book_id = some gid
    · simp [Function.comp, hx, isCountedToday]
    · simp [Function.comp, hx]
  · rw [hup]
    unfold countUserDownloadsToday
    simp only [List.countP_map]
    apply List.countP_congr
    intro x _
    by_cases hx : x.goodreads_book_id = some gid
    · simp [Function.comp, hx, isCountedToday]
    · simp [Function.comp, hx]
  · rw [hup]
    simp only []
    rw [show s.books.length = (s.books.map (fun x =>
        if x.goodreads_book_id = some gid then
          { x with isbn := i.orElse (fun _ => x.isbn),
                   title := t.orElse (fun _ => x.title),
                   author := a.orElse (fun _ => x.author),
                   updated_at := now }
        else x)).length from (List.length_map _ _).symm, List.take_length]
    apply forall2_map_self
    intro x _
    by_cases hx : x.goodreads_book_id = some gid
    · simp [hx]
    · simp [hx]
  · intro b2 hb2
    rw [hup] at hb2
    simp only [List.mem_map] at hb2
    obtain ⟨x, hx, rfl⟩ := hb2
    by_cases hxg : x.goodreads_book_id = some gid
    · simp [hxg]
    · simp only [if_neg hxg]
      intro hcon
      exact absurd hcon hxg

theorem c7_witness :
    booksWithGid
        (upsertBookByGoodreadsId (upsertBookByGoodreadsId store1 "g2" none (some "X") none 5)
          "g2" none none (some "Y") 6) "g2" =
      [{ id := freshBookId store1, goodreads_book_id := some "g2", isbn := none,
         title := some "X", author := some "Y", status := "pending", attempts := 0,
         file_path := none, added_at := 5, updated_at := 6, downloaded_at := none }] ∧
    (upsertBookByGoodreadsId (upsertBookByGoodreadsId store1 "g2" none (some "X") none 5)
        "g2" none none (some "Y") 6).books.length = store1.books.length + 1 ∧
    (∀ (s2 : Store) (gid2 : String) (i t a : Option String) (now : Nat),
      List.Forall₂ (fun b b2 =>
          b2.goodreads_book_id = b.goodreads_book_id ∧
          (b.title ≠ none → b2.title ≠ none) ∧
          (b.author ≠ none → b2.author ≠ none) ∧
          (b.isbn ≠ none → b2.isbn ≠ none))
        s2.books ((upsertBookByGoodreadsId s2 gid2 i t a now).books.take s2.books.length)) :=
  c7_upsert_idempotent_merge store1 "g2" 5 6 (by decide)

theorem c8_witness :
    countDownloadsToday (upsertBookByGoodreadsId store2 "g9" (some "111") none none 7777) 1000 =
      countDownloadsToday store2 1000 ∧
    countUserDownloadsToday (upsertBookByGoodreadsId store2 "g9" (some "111") none none 7777) 1 1000 =
      countUserDownloadsToday store2 1 1000 ∧
    List.Forall₂ (fun b0 b2 => b2.downloaded_at = b0.downloaded_at ∧
        b2.status = b0.status ∧ b2.id = b0.id)
      store2.books ((upsertBookByGoodreadsId store2 "g9" (some "111") none none 7777).books.take
        store2.books.length) ∧
    (∀ b2 ∈ (upsertBookByGoodreadsId store2 "g9" (some "111") none none 7777).books,
      b2.goodreads_book_id = some "g9" → b2.updated_at = 7777) :=
  c8_upsert_preserves_counts store2 "g9" (some "111") none none 7777 1000 1 doneBook
    (by decide) (by decide) (by decide)

/-! ## Per-item behaviour (C1, C9) -/

theorem find?_map_id_pres (l : List Book) (g : Book → Book) (bid : Nat)
    (hg : ∀ x, (g x).id = x.id) :
    (l.map g).find? (fun b => b.id = bid) = ((l.find? (fun b => b.id = bid)).map g) := by
  have hfun : (fun (b : Book) => decide (b.id = bid)) ∘ g =
      (fun (b : Book) => decide (b.id = bid)) := by
    funext x
    simp [Function.comp, hg]
  rw [List.find?_map, hfun]

theorem bookById_updateBook (s : Store) (bid bid2 : Nat) (f : Book → Book)
    (hf : ∀ x, (f x).id = x.id) :
    bookById (updateBook s bid f) bid2 =
      (bookById s bid2).map (fun b => if b.id = bid then f b else b) := by
  unfold bookById updateBook
  exact find?_map_id_pres s.books _ bid2 (fun x => by by_cases h : x.id = bid <;> simp [h, hf])

theorem find?_id_of_nodup (l : List Book) (b : Book)
    (hwf : (l.map (fun x => x.id)).Nodup) (hb : b ∈ l) :
    l.find? (fun x => x.id = b.id) = some b := by
  induction l with
  | nil => cases hb
  | cons c rest ih =>
    rw [List.map_cons, List.nodup_cons] at hwf
    rcases List.mem_cons.mp hb with rfl | hmem
    · simp [List.find?_cons]
    · have hc : ¬(c.id = b.id) := by
        intro he
        exact hwf.1 (he ▸ List.mem_map_of_mem (fun x => x.id) hmem)
      rw [List.find?_cons]
      simp only [decide_eq_false hc]
      exact ih hwf.2 hmem

theorem bookById_of_mem (s : Store) (b : Book)
    (hwf : (s.books.map (fun x => x.id)).Nodup) (hb : b ∈ s.books) :
    bookById s b.id = some b :=
  find?_id_of_nodup s.books b hwf hb

theorem bookById_updateBook_self (s : Store) (b : Book) (f : Book → Book)
    (hf : ∀ x, (f x).id = x.id)
    (hwf : (s.books.map (fun x => x.id)).Nodup) (hb : b ∈ s.books) :
    bookById (updateBook s b.id f) b.id = some (f b) := by
  rw [bookById_updateBook s b.id b.id f hf, bookById_of_mem s b hwf hb]
  simp

theorem runItem_fail_eq (uCap now : Nat) (job : Book) (eligible : List User) (o : Outcome)
    (st : QState) (h : attemptSucceeds job o = false) :
    runItem uCap now job eligible o st =
      { st with
        store := if MAX_ATTEMPTS ≤ job.attempts + 1
          then markFailed (incrementAttempts st.store job.id now) job.id now
          else incrementAttempts st.store job.id now,
        processed := st.processed + 1, failed := st.failed + 1 } := by
  unfold runItem
  simp [h]

theorem updateBook_idmap (s : Store) (bid : Nat) (f : Book → Book)
    (hf : ∀ x, (f x).id = x.id) :
    (updateBook s bid f).books.map (fun x => x.id) = s.books.map (fun x => x.id) := by
  unfold updateBook
  rw [List.map_map]
  apply List.map_congr_left
  intro b _
  by_cases h : b.id = bid <;> simp [Function.comp, h, hf]

theorem mem_of_bookById (s : Store) (bid : Nat) (b : Book)
    (h : bookById s bid = some b) : b ∈ s.books :=
  List.mem_of_find?_eq_some h

theorem runItem_fail_book (uCap now : Nat) (job : Book) (eligible : List User) (o : Outcome)
    (st : QState)
    (hwf : (st.store.books.map (fun x => x.id)).Nodup)
    (hmem : job ∈ st.store.books)
    (h : attemptSucceeds job o = false) :
    bookById (runItem uCap now job eligible o st).store job.id =
      some (if MAX_ATTEMPTS ≤ job.attempts + 1
        then { job with attempts := job.attempts + 1, status := "failed", updated_at := now }
        else { job with attempts := job.attempts + 1, updated_at := now }) := by
  rw [runItem_fail_eq _ _ _ _ _ _ h]
  have hinc : bookById (incrementAttempts st.store job.id now) job.id =
      some { job with attempts := job.attempts + 1, updated_at := now } := by
    unfold incrementAttempts
    exact bookById_updateBook_self st.store job (bumpAttempt now) (fun x => rfl) hwf hmem
  by_cases hm : MAX_ATTEMPTS ≤ job.attempts + 1
  · simp only [if_pos hm]
    unfold markFailed
    have hwf1 : ((incrementAttempts st.store job.id now).books.map (fun x => x.id)).Nodup := by
      unfold incrementAttempts
      rw [updateBook_idmap st.store job.id (bumpAttempt now) (fun x => rfl)]
      exact hwf
    have hmem1 : ({ job with attempts := job.attempts + 1, updated_at := now } : Book) ∈
        (incrementAttempts st.store job.id now).books :=
      mem_of_bookById _ _ _ hinc
    have := bookById_updateBook_self (incrementAttempts st.store job.id now)
      { job with attempts := job.attempts + 1, updated_at := now }
      (setFailed now) (fun x => rfl) hwf1 hmem1
    exact this
  · simp only [if_neg hm]
    exact hinc

/-- C1 counterexample: with the search and transfer succeeding (5 MB
file) but the destination copy failing on every attempt, the book never
reaches status `downloaded`: every attempt is recorded as a failure and
the book ends permanently `failed` after re-downloads exhaust the
budget, contradicting "the Book is still marked downloaded and the
failure is only logged". -/
theorem c1_copy_failure_counterexample :
    (processQueue 50 10 envCopyFail 86400 10 store1).succeeded = 0 ∧
    (processQueue 50 10 envCopyFail 86400 10 store1).failed = 5 ∧
    (bookById (processQueue 50 10 envCopyFail 86400 10 store1).store 1).map Book.status =
      some "failed" ∧
    (bookById (processQueue 50 10 envCopyFail 86400 10 store1).store 1).map
      Book.downloaded_at = some none := by
  decide

/-- C1 (amended): a destination copy failure aborts the item inside the
try block, so the attempt is recorded as a failure: the book is not
marked downloaded, it stays `pending` (or becomes `failed` once the
budget is exhausted) and `downloaded_at` stays unset; only the temp-file
cleanup outcome is without effect on the recorded state. -/
theorem c1_copy_failure_records_failure (uCap now : Nat) (job : Book)
    (eligible : List User) (o : Outcome) (st : QState)
    (hwf : (st.store.books.map (fun x => x.id)).Nodup)
    (hmem : job ∈ st.store.books) (hp : job.status = "pending")
    (hcopy : o.copyOk = false) :
    attemptSucceeds job o = false ∧
    (runItem uCap now job eligible o st).succeeded = st.succeeded ∧
    (runItem uCap now job eligible o st).failed = st.failed + 1 ∧
    (bookById (runItem uCap now job eligible o st).store job.id).map Book.status =
      some (if MAX_ATTEMPTS ≤ job.attempts + 1 then "failed" else "pending") ∧
    (bookById (runItem uCap now job eligible o st).store job.id).map Book.downloaded_at =
      some job.downloaded_at ∧
    (∀ (o2 : Outcome) (c : Bool),
      runItem uCap now job eligible { o2 with cleanupOk := c } st =
        runItem uCap now job eligible o2 st) := by
  have hfail : attemptSucceeds job o = false := by
    unfold attemptSucceeds
    rw [hcopy]
    simp
  have hbook := runItem_fail_book uCap now job eligible o st hwf hmem hfail
  refine ⟨hfail, ?_, ?_, ?_, ?_, fun o2 c => rfl⟩
  · rw [runItem_fail_eq _ _ _ _ _ _ hfail]
  · rw [runItem_fail_eq _ _ _ _ _ _ hfail]
  · rw [hbook]
    by_cases hm : MAX_ATTEMPTS ≤ job.attempts + 1
    · simp [hm]
    · simp [hm, hp]
  · rw [hbook]
    by_cases hm : MAX_ATTEMPTS ≤ job.attempts + 1
    · simp [hm]
    · simp [hm]

/-- Witness for C1's amended theorem at a concrete input. -/
theorem c1_amended_witness :
    attemptSucceeds duneBook copyFailOutcome = false ∧
    (runItem 10 86400 duneBook [aliceUser] copyFailOutcome qstate1).succeeded = 0 ∧
    (runItem 10 86400 duneBook [aliceUser] copyFailOutcome qstate1).failed = 0 + 1 ∧
    (bookById (runItem 10 86400 duneBook [aliceUser] copyFailOutcome qstate1).store
        duneBook.id).map Book.status =
      some (if MAX_ATTEMPTS ≤ duneBook.attempts + 1 then "failed" else "pending") ∧
    (bookById (runItem 10 86400 duneBook [aliceUser] copyFailOutcome qstate1).store
        duneBook.id).map Book.downloaded_at = some duneBook.downloaded_at ∧
    (∀ (o2 : Outcome) (c : Bool),
      runItem 10 86400 duneBook [aliceUser] { o2 with cleanupOk := c } qstate1 =
        runItem 10 86400 duneBook [aliceUser] o2 qstate1) :=
  c1_copy_failure_records_failure 10 86400 duneBook [aliceUser] copyFailOutcome qstate1
    (by decide) (by decide) (by decide) (by decide)

/-- C9: a downloaded file under 1024 bytes is rejected by the integrity
gate: `downloadBook` deletes the temp file and raises an error instead
of returning it, and inside the queue such an attempt is recorded as a
failure, never as a success. -/
theorem c9_small_download_rejected (tempFiles : List String) (tempPath : String) (n : Nat)
    (uCap now : Nat) (job : Book) (eligible : List User) (o : Outcome) (st : QState)
    (hn : n < 1024) (hnd : tempFiles.Nodup) (ho : o.fetch = Fetch.file n)
    (hwf : (st.store.books.map (fun x => x.id)).Nodup)
    (hmem : job ∈ st.store.books) (hp : job.status = "pending") :
    (downloadBook tempFiles tempPath n).1 =
      Except.error ("Downloaded file too small (" ++ toString n ++
        " bytes), likely an error page") ∧
    tempPath ∉ (downloadBook tempFiles tempPath n).2 ∧
    attemptSucceeds job o = false ∧
    (runItem uCap now job eligible o st).succeeded = st.succeeded ∧
    (runItem uCap now job eligible o st).failed = st.failed + 1 ∧
    (bookById (runItem uCap now job eligible o st).store job.id).map Book.status =
      some (if MAX_ATTEMPTS ≤ job.attempts + 1 then "failed" else "pending") := by
  have hfail : attemptSucceeds job o = false := by
    unfold attemptSucceeds
    rw [ho]
    simp [decide_eq_false (Nat.not_le.mpr hn)]
  have hbook := runItem_fail_book uCap now job eligible o st hwf hmem hfail
  refine ⟨?_, ?_, hfail, ?_, ?_, ?_⟩
  · unfold downloadBook
    simp [hn]
  · unfold downloadBook
    by_cases hc : tempFiles.contains tempPath = true
    · simp only [if_pos hc, if_pos hn]
      exact hnd.not_mem_erase
    · simp only [if_neg hc, if_pos hn]
      have hmem2 : tempPath ∉ tempFiles := by
        intro hin
        exact hc ((list_contains_iff _ _).mpr hin)
      exact (List.nodup_cons.mpr ⟨hmem2, hnd⟩).not_mem_erase
  · rw [runItem_fail_eq _ _ _ _ _ _ hfail]
  · rw [runItem_fail_eq _ _ _ _ _ _ hfail]
  · rw [hbook]
    by_cases hm : MAX_ATTEMPTS ≤ job.attempts + 1
    · simp [hm]
    · simp [hm, hp]

/-- Witness for C9 at a concrete input: a 900-byte payload. -/
theorem c9_witness :
    (downloadBook ["other.tmp"] "book.epub" 900).1 =
      Except.error ("Downloaded file too small (" ++ toString 900 ++
        " bytes), likely an error page") ∧
    "book.epub" ∉ (downloadBook ["other.tmp"] "book.epub" 900).2 ∧
    attemptSucceeds duneBook { fetch := Fetch.file 900, copyOk := true, cleanupOk := true } =
      false ∧
    (runItem 10 86400 duneBook [aliceUser]
        { fetch := Fetch.file 900, copyOk := true, cleanupOk := true } qstate1).succeeded = 0 ∧
    (runItem 10 86400 duneBook [aliceUser]
        { fetch := Fetch.file 900, copyOk := true, cleanupOk := true } qstate1).failed = 0 + 1 ∧
    (bookById (runItem 10 86400 duneBook [aliceUser]
        { fetch := Fetch.file 900, copyOk := true, cleanupOk := true } qstate1).store
      duneBook.id).map Book.status =
        some (if MAX_ATTEMPTS ≤ duneBook.attempts + 1 then "failed" else "pending") :=
  c9_small_download_rejected ["other.tmp"] "book.epub" 900 10 86400 duneBook [aliceUser]
    { fetch := Fetch.file 900, copyOk := true, cleanupOk := true } qstate1
    (by decide) (by decide) (by decide) (by decide) (by decide) (by decide)

/-! ## Queue-loop invariants (C2, C3, C10) -/

theorem bookEvolves_refl (b : Book) : bookEvolves b b :=
  ⟨rfl, Nat.le_refl _, fun _ => rfl, fun _ => rfl⟩

theorem bookEvolves_trans {a b c : Book} (h1 : bookEvolves a b) (h2 : bookEvolves b c) :
    bookEvolves a c := by
  obtain ⟨hid1, hat1, hst1, hmax1⟩ := h1
  obtain ⟨hid2, hat2, hst2, hmax2⟩ := h2
  refine ⟨hid2.trans hid1, hat1.trans hat2, ?_, ?_⟩
  · intro h
    have hb := hst1 h
    rw [hb] at hst2
    exact hst2 h
  · intro h
    have hb := hmax1 h
    rw [hb] at hmax2
    exact hmax2 h

theorem forall2_refl_books {R : Book → Book → Prop} (hrefl : ∀ b, R b b) :
    ∀ l : List Book, List.Forall₂ R l l := by
  intro l
  rw [List.forall₂_same]
  intro b _
  exact hrefl b

theorem forall2_trans_books (R : Book → Book → Prop)
    (htrans : ∀ a b c : Book, R a b → R b c → R a c) :
    ∀ {l1 l2 l3 : List Book}, List.Forall₂ R l1 l2 → List.Forall₂ R l2 l3 →
      List.Forall₂ R l1 l3 := by
  intro l1 l2 l3 h12
  induction h12 generalizing l3 with
  | nil =>
    intro h
    cases h
    exact List.Forall₂.nil
  | cons hab htail ih =>
    intro h23
    cases h23 with
    | cons hbc htail2 => exact List.Forall₂.cons (htrans _ _ _ hab hbc) (ih htail2)

theorem selectMin_mem : ∀ {l : List Book} {b : Book}, selectMin l = some b → b ∈ l := by
  intro l
  induction l with
  | nil =>
    intro b h
    simp [selectMin] at h
  | cons c rest ih =>
    intro b h
    unfold selectMin at h
    cases hr : selectMin rest with
    | none =>
      simp only [hr] at h
      cases h
      exact List.mem_cons_self _ _
    | some m =>
      simp only [hr] at h
      by_cases hlt : m.attempts < c.attempts
      · simp only [if_pos hlt] at h
        cases h
        exact List.mem_cons_of_mem _ (ih hr)
      · simp only [if_neg hlt] at h
        cases h
        exact List.mem_cons_self _ _

theorem getNextPendingExcl_spec {s : Store} {maxA : Nat} {excl : List Nat} {b : Book}
    (h : getNextPendingExcl s maxA excl = some b) :
    b ∈ s.books ∧ b.status = "pending" ∧ b.attempts < maxA ∧
      excl.contains b.id = false := by
  unfold getNextPendingExcl at h
  have hmem := selectMin_mem h
  have hp := List.mem_filter.mp hmem
  have hok := hp.2
  unfold pendingOk at hok
  simp only [Bool.and_eq_true, decide_eq_true_eq, Bool.not_eq_true'] at hok
  exact ⟨hp.1, hok.1.1, hok.1.2, hok.2⟩

theorem updateBook_comp (s : Store) (bid : Nat) (f g : Book → Book)
    (hf : ∀ x, (f x).id = x.id) :
    updateBook (updateBook s bid f) bid g = updateBook s bid (fun b => g (f b)) := by
  unfold updateBook
  simp only [List.map_map]
  congr 1
  apply List.map_congr_left
  intro b _
  by_cases h : b.id = bid
  · simp [Function.comp, h, hf]
  · simp [Function.comp, h]

theorem runItem_store_eq (uCap now : Nat) (job : Book) (eligible : List User) (o : Outcome)
    (st : QState) :
    (runItem uCap now job eligible o st).store =
      if attemptSucceeds job o then
        updateBook st.store job.id
          (fun b => setDownloaded (filenameOf job) now (bumpAttempt now b))
      else if MAX_ATTEMPTS ≤ job.attempts + 1 then
        updateBook st.store job.id (fun b => setFailed now (bumpAttempt now b))
      else updateBook st.store job.id (bumpAttempt now) := by
  unfold runItem markDownloaded markFailed incrementAttempts
  by_cases h : attemptSucceeds job o = true
  · simp only [h, if_true]
    rw [updateBook_comp st.store job.id (bumpAttempt now)
      (setDownloaded (filenameOf job) now) (fun x => rfl)]
  · simp only [Bool.not_eq_true] at h
    simp only [h, Bool.false_eq_true, if_false]
    by_cases hm : MAX_ATTEMPTS ≤ job.attempts + 1
    · simp only [if_pos hm]
      rw [updateBook_comp st.store job.id (bumpAttempt now) (setFailed now) (fun x => rfl)]
    · simp only [if_neg hm]

theorem forall2_map_ite (R : Book → Book → Prop) (hrefl : ∀ b, R b b)
    (f : Book → Book) (job : Book) (hjob : R job (f job)) :
    ∀ l : List Book, (l.map (fun x => x.id)).Nodup → job ∈ l →
      List.Forall₂ R l (l.map (fun b => if b.id = job.id then f b else b)) := by
  intro l
  induction l with
  | nil =>
    intro _ h
    cases h
  | cons c rest ih =>
    intro hwf hmem
    rw [List.map_cons, List.nodup_cons] at hwf
    simp only [List.map_cons]
    rcases List.mem_cons.mp hmem with rfl | hmem2
    · refine List.Forall₂.cons (by simp only [if_pos rfl]; exact hjob) ?_
      apply forall2_map_self
      intro b hb
      have hbne : ¬(b.id = job.id) := by
        intro he
        exact hwf.1 (he ▸ List.mem_map_of_mem (fun x => x.id) hb)
      simp only [if_neg hbne]
      exact hrefl b
    · have hcne : ¬(c.id = job.id) := by
        intro he
        exact hwf.1 (he ▸ List.mem_map_of_mem (fun x => x.id) hmem2)
      exact List.Forall₂.cons (by simp only [if_neg hcne]; exact hrefl c) (ih hwf.2 hmem2)

theorem forall2_updateBook (R : Book → Book → Prop) (hrefl : ∀ b, R b b)
    (s : Store) (job : Book) (f : Book → Book)
    (hwf : (s.books.map (fun x => x.id)).Nodup) (hmem : job ∈ s.books)
    (hjob : R job (f job)) :
    List.Forall₂ R s.books (updateBook s job.id f).books :=
  forall2_map_ite R hrefl f job hjob s.books hwf hmem

theorem runItem_evolves (uCap now : Nat) (job : Book) (eligible : List User) (o : Outcome)
    (st : QState) (hwf : (st.store.books.map (fun x => x.id)).Nodup)
    (hmem : job ∈ st.store.books) (hp : job.status = "pending")
    (ha : job.attempts < MAX_ATTEMPTS) :
    List.Forall₂ bookEvolves st.store.books (runItem uCap now job eligible o st).store.books := by
  rw [runItem_store_eq]
  split_ifs with h1 h2
  · apply forall2_updateBook bookEvolves bookEvolves_refl st.store job _ hwf hmem
    exact ⟨rfl, Nat.le_succ _, fun hne => absurd hp hne,
      fun hmax => absurd hmax (Nat.not_le.mpr ha)⟩
  · apply forall2_updateBook bookEvolves bookEvolves_refl st.store job _ hwf hmem
    exact ⟨rfl, Nat.le_succ _, fun hne => absurd hp hne,
      fun hmax => absurd hmax (Nat.not_le.mpr ha)⟩
  · apply forall2_updateBook bookEvolves bookEvolves_refl st.store job _ hwf hmem
    exact ⟨rfl, Nat.le_succ _, fun hne => absurd hp hne,
      fun hmax => absurd hmax (Nat.not_le.mpr ha)⟩

theorem runItem_frame (uCap now : Nat) (job : Book) (eligible : List User) (o : Outcome)
    (st : QState) :
    (runItem uCap now job eligible o st).store.users = st.store.users ∧
    (runItem uCap now job eligible o st).store.user_books = st.store.user_books ∧
    (runItem uCap now job eligible o st).store.books.map (fun x => x.id) =
      st.store.books.map (fun x => x.id) := by
  rw [runItem_store_eq]
  split_ifs with h1 h2
  · exact ⟨rfl, rfl, updateBook_idmap st.store job.id _ (fun x => rfl)⟩
  · exact ⟨rfl, rfl, updateBook_idmap st.store job.id _ (fun x => rfl)⟩
  · exact ⟨rfl, rfl, updateBook_idmap st.store job.id _ (fun x => rfl)⟩

theorem storeInv_updateBook (s : Store) (job : Book) (f : Book → Book)
    (hwf : (s.books.map (fun x => x.id)).Nodup) (hmem : job ∈ s.books)
    (hinv : StoreInv s) (hfj : BookInv (f job)) :
    StoreInv (updateBook s job.id f) := by
  intro b2 hb2
  unfold updateBook at hb2
  simp only [List.mem_map] at hb2
  obtain ⟨b, hb, rfl⟩ := hb2
  by_cases hid : b.id = job.id
  · have hbj : b = job := List.inj_on_of_nodup_map hwf hb hmem hid
    rw [if_pos hid, hbj]
    exact hfj
  · rw [if_neg hid]
    exact hinv b hb

theorem bookInv_setDownloaded (job : Book) (fname : String) (now : Nat)
    (ha : job.attempts < MAX_ATTEMPTS) :
    BookInv (setDownloaded fname now (bumpAttempt now job)) := by
  refine ⟨?_, ?_, ?_⟩
  · show job.attempts + 1 ≤ MAX_ATTEMPTS
    omega
  · intro hcon
    have hcon2 : ("downloaded" : String) = "failed" := hcon
    exact absurd hcon2 (by decide)
  · intro _
    show (some now : Option Nat) ≠ none
    simp

theorem bookInv_setFailed (job : Book) (now : Nat)
    (ha : job.attempts < MAX_ATTEMPTS) (hm : MAX_ATTEMPTS ≤ job.attempts + 1) :
    BookInv (setFailed now (bumpAttempt now job)) := by
  refine ⟨?_, ?_, ?_⟩
  · show job.attempts + 1 ≤ MAX_ATTEMPTS
    omega
  · intro _
    show job.attempts + 1 = MAX_ATTEMPTS
    omega
  · intro hcon
    have hcon2 : ("failed" : String) = "downloaded" := hcon
    exact absurd hcon2 (by decide)

theorem bookInv_bumpAttempt (job : Book) (now : Nat)
    (hp : job.status = "pending") (ha : job.attempts < MAX_ATTEMPTS) :
    BookInv (bumpAttempt now job) := by
  refine ⟨?_, ?_, ?_⟩
  · show job.attempts + 1 ≤ MAX_ATTEMPTS
    omega
  · intro hcon
    have hcon2 : job.status = "failed" := hcon
    rw [hp] at hcon2
    exact absurd hcon2 (by decide)
  · intro hcon
    have hcon2 : job.status = "downloaded" := hcon
    rw [hp] at hcon2
    exact absurd hcon2 (by decide)

theorem runItem_inv (uCap now : Nat) (job : Book) (eligible : List User) (o : Outcome)
    (st : QState) (hwf : (st.store.books.map (fun x => x.id)).Nodup)
    (hmem : job ∈ st.store.books) (hp : job.status = "pending")
    (ha : job.attempts < MAX_ATTEMPTS) (hinv : StoreInv st.store) :
    StoreInv (runItem uCap now job eligible o st).store := by
  rw [runItem_store_eq]
  split_ifs with h1 h2
  · exact storeInv_updateBook st.store job _ hwf hmem hinv
      (bookInv_setDownloaded job (filenameOf job) now ha)
  · exact storeInv_updateBook st.store job _ hwf hmem hinv (bookInv_setFailed job now ha h2)
  · exact storeInv_updateBook st.store job _ hwf hmem hinv (bookInv_bumpAttempt job now hp ha)

theorem queueLoop_frame_evolves (gCap uCap : Nat) (env : Nat → Outcome) (now : Nat) :
    ∀ (fuel : Nat) (st : QState), (st.store.books.map (fun x => x.id)).Nodup →
      ((queueLoop gCap uCap env now fuel st).store.users = st.store.users ∧
       (queueLoop gCap uCap env now fuel st).store.user_books = st.store.user_books ∧
       (queueLoop gCap uCap env now fuel st).store.books.map (fun x => x.id) =
         st.store.books.map (fun x => x.id) ∧
       List.Forall₂ bookEvolves st.store.books
         (queueLoop gCap uCap env now fuel st).store.books) := by
  intro fuel
  induction fuel with
  | zero =>
    intro st _
    exact ⟨rfl, rfl, rfl, forall2_refl_books bookEvolves_refl _⟩
  | succ fuel ih =>
    intro st hwf
    rw [queueLoop]
    by_cases hcap : gCap ≤ countDownloadsToday st.store now
    · rw [if_pos hcap]
      exact ⟨rfl, rfl, rfl, forall2_refl_books bookEvolves_refl _⟩
    · rw [if_neg hcap]
      cases hsel : getNextPendingExcl st.store MAX_ATTEMPTS st.skippedBookIds with
      | none =>
        simp only [hsel]
        exact ⟨by trivial, by trivial, by trivial, forall2_refl_books bookEvolves_refl _⟩
      | some job =>
        simp only [hsel]
        obtain ⟨hmem, hp, ha, _⟩ := getNextPendingExcl_spec hsel
        by_cases helig : ((getUsersForBook st.store job.id).filter
            (fun u => !(st.rateLimited.contains u.id))).isEmpty = true
        · rw [if_pos helig]
          exact ih _ hwf
        · rw [if_neg helig]
          have hframe := runItem_frame uCap now job
            ((getUsersForBook st.store job.id).filter
              (fun u => !(st.rateLimited.contains u.id))) (env st.processed) st
          have hev := runItem_evolves uCap now job
            ((getUsersForBook st.store job.id).filter
              (fun u => !(st.rateLimited.contains u.id))) (env st.processed) st
            hwf hmem hp ha
          have hwf2 : ((runItem uCap now job
              ((getUsersForBook st.store job.id).filter
                (fun u => !(st.rateLimited.contains u.id))) (env st.processed)
              st).store.books.map (fun x => x.id)).Nodup := by
            rw [hframe.2.2]
            exact hwf
          obtain ⟨hu, hub, hid, hforall⟩ := ih _ hwf2
          exact ⟨hu.trans hframe.1, hub.trans hframe.2.1, hid.trans hframe.2.2,
            forall2_trans_books bookEvolves (fun _ _ _ h1 h2 => bookEvolves_trans h1 h2) hev hforall⟩

theorem queueLoop_inv (gCap uCap : Nat) (env : Nat → Outcome) (now : Nat) :
    ∀ (fuel : Nat) (st : QState), (st.store.books.map (fun x => x.id)).Nodup →
      StoreInv st.store → StoreInv (queueLoop gCap uCap env now fuel st).store := by
  intro fuel
  induction fuel with
  | zero =>
    intro st _ hinv
    exact hinv
  | succ fuel ih =>
    intro st hwf hinv
    rw [queueLoop]
    by_cases hcap : gCap ≤ countDownloadsToday st.store now
    · rw [if_pos hcap]
      exact hinv
    · rw [if_neg hcap]
      cases hsel : getNextPendingExcl st.store MAX_ATTEMPTS st.skippedBookIds with
      | none =>
        simp only [hsel]
        exact hinv
      | some job =>
        simp only [hsel]
        obtain ⟨hmem, hp, ha, _⟩ := getNextPendingExcl_spec hsel
        by_cases helig : ((getUsersForBook st.store job.id).filter
            (fun u => !(st.rateLimited.contains u.id))).isEmpty = true
        · rw [if_pos helig]
          exact ih _ hwf hinv
        · rw [if_neg helig]
          have hframe := runItem_frame uCap now job
            ((getUsersForBook st.store job.id).filter
              (fun u => !(st.rateLimited.contains u.id))) (env st.processed) st
          have hwf2 : ((runItem uCap now job
              ((getUsersForBook st.store job.id).filter
                (fun u => !(st.rateLimited.contains u.id))) (env st.processed)
              st).store.books.map (fun x => x.id)).Nodup := by
            rw [hframe.2.2]
            exact hwf
          exact ih _ hwf2 (runItem_inv uCap now job _ (env st.processed) st hwf hmem hp ha hinv)

theorem countP_map_ite (p : Book → Bool) (f : Book → Book) (job : Book) :
    ∀ l : List Book, (l.map (fun x => x.id)).Nodup → job ∈ l →
      (l.map (fun b => if b.id = job.id then f b else b)).countP p +
          (if p job then 1 else 0) =
        l.countP p + (if p (f job) then 1 else 0) := by
  intro l
  induction l with
  | nil =>
    intro _ h
    cases h
  | cons c rest ih =>
    intro hwf hmem
    rw [List.map_cons, List.nodup_cons] at hwf
    rcases List.mem_cons.mp hmem with rfl | hmem2
    · have htail : rest.map (fun b => if b.id = job.id then f b else b) = rest := by
        apply map_ite_id
        intro b hb hbid
        exact hwf.1 (hbid ▸ List.mem_map_of_mem (fun x => x.id) hb)
      simp only [List.map_cons, if_pos rfl, htail, List.countP_cons]
      by_cases hpc : p job = true <;> by_cases hpf : p (f job) = true <;>
        simp [hpc, hpf]
    · have hcne : ¬(c.id = job.id) := by
        intro he
        exact hwf.1 (he ▸ List.mem_map_of_mem (fun x => x.id) hmem2)
      simp only [List.map_cons, if_neg hcne, List.countP_cons]
      have hrec := ih hwf.2 hmem2
      omega

theorem countP_updateBook (p : Book → Bool) (s : Store) (job : Book) (f : Book → Book)
    (hwf : (s.books.map (fun x => x.id)).Nodup) (hmem : job ∈ s.books) :
    (updateBook s job.id f).books.countP p + (if p job then 1 else 0) =
      s.books.countP p + (if p (f job) then 1 else 0) :=
  countP_map_ite p f job s.books hwf hmem

theorem runItem_count_le (uCap now : Nat) (job : Book) (eligible : List User) (o : Outcome)
    (st : QState) (hwf : (st.store.books.map (fun x => x.id)).Nodup)
    (hmem : job ∈ st.store.books) (hp : job.status = "pending") :
    countDownloadsToday (runItem uCap now job eligible o st).store now ≤
      countDownloadsToday st.store now + 1 := by
  have hpj : isCountedToday job now = false := by
    unfold isCountedToday
    rw [hp]
    simp
  rw [runItem_store_eq]
  unfold countDownloadsToday
  split_ifs with h1 h2
  · have hcnt := countP_updateBook (fun b => isCountedToday b now) st.store job
      (fun b => setDownloaded (filenameOf job) now (bumpAttempt now b)) hwf hmem
    simp only [hpj, Bool.false_eq_true, if_false] at hcnt
    split_ifs at hcnt <;> omega
  · have hcnt := countP_updateBook (fun b => isCountedToday b now) st.store job
      (fun b => setFailed now (bumpAttempt now b)) hwf hmem
    simp only [hpj, Bool.false_eq_true, if_false] at hcnt
    split_ifs at hcnt <;> omega
  · have hcnt := countP_updateBook (fun b => isCountedToday b now) st.store job
      (bumpAttempt now) hwf hmem
    simp only [hpj, Bool.false_eq_true, if_false] at hcnt
    split_ifs at hcnt <;> omega

theorem queueLoop_count_le (gCap uCap : Nat) (env : Nat → Outcome) (now : Nat) :
    ∀ (fuel : Nat) (st : QState), (st.store.books.map (fun x => x.id)).Nodup →
      countDownloadsToday (queueLoop gCap uCap env now fuel st).store now ≤
        max (countDownloadsToday st.store now) gCap := by
  intro fuel
  induction fuel with
  | zero =>
    intro st _
    exact le_max_left _ _
  | succ fuel ih =>
    intro st hwf
    rw [queueLoop]
    by_cases hcap : gCap ≤ countDownloadsToday st.store now
    · rw [if_pos hcap]
      exact le_max_left _ _
    · rw [if_neg hcap]
      cases hsel : getNextPendingExcl st.store MAX_ATTEMPTS st.skippedBookIds with
      | none =>
        simp only [hsel]
        exact le_max_left _ _
      | some job =>
        simp only [hsel]
        obtain ⟨hmem, hp, ha, _⟩ := getNextPendingExcl_spec hsel
        by_cases helig : ((getUsersForBook st.store job.id).filter
            (fun u => !(st.rateLimited.contains u.id))).isEmpty = true
        · rw [if_pos helig]
          exact ih _ hwf
        · rw [if_neg helig]
          have hframe := runItem_frame uCap now job
            ((getUsersForBook st.store job.id).filter
              (fun u => !(st.rateLimited.contains u.id))) (env st.processed) st
          have hwf2 : ((runItem uCap now job
              ((getUsersForBook st.store job.id).filter
                (fun u => !(st.rateLimited.contains u.id))) (env st.processed)
              st).store.books.map (fun x => x.id)).Nodup := by
            rw [hframe.2.2]
            exact hwf
          have hcnt := runItem_count_le uCap now job
            ((getUsersForBook st.store job.id).filter
              (fun u => !(st.rateLimited.contains u.id))) (env st.processed) st hwf hmem hp
          have hrec := ih _ hwf2
          have hle : countDownloadsToday (runItem uCap now job
              ((getUsersForBook st.store job.id).filter
                (fun u => !(st.rateLimited.contains u.id))) (env st.processed)
              st).store now ≤ gCap := by
            omega
          calc countDownloadsToday (queueLoop gCap uCap env now fuel
                (runItem uCap now job ((getUsersForBook st.store job.id).filter
                  (fun u => !(st.rateLimited.contains u.id))) (env st.processed) st)).store now ≤
              max (countDownloadsToday (runItem uCap now job
                ((getUsersForBook st.store job.id).filter
                  (fun u => !(st.rateLimited.contains u.id))) (env st.processed)
                st).store now) gCap := hrec
            _ = gCap := max_eq_right hle
            _ ≤ max (countDownloadsToday st.store now) gCap := le_max_right _ _

theorem runItem_success_book (uCap now : Nat) (job : Book) (eligible : List User)
    (o : Outcome) (st : QState) (hwf : (st.store.books.map (fun x => x.id)).Nodup)
    (hmem : job ∈ st.store.books) (hs : attemptSucceeds job o = true) :
    bookById (runItem uCap now job eligible o st).store job.id =
      some (setDownloaded (filenameOf job) now (bumpAttempt now job)) := by
  rw [runItem_store_eq, if_pos hs]
  exact bookById_updateBook_self st.store job
    (fun b => setDownloaded (filenameOf job) now (bumpAttempt now b)) (fun x => rfl) hwf hmem

/-- C2: under the primary-key and Book invariants, a whole queue run
preserves the invariant (`attempts ≤ MAX_ATTEMPTS`, `failed ⇒ attempts =
MAX_ATTEMPTS`, `downloaded ⇒ downloaded_at ≠ null`), never decreases any
book's attempts, never touches a terminal or exhausted book, selects
only pending books under the attempt cap, and a processed item ends
`failed` exactly when its attempt failed and the incremented counter
first reaches `MAX_ATTEMPTS`. -/
theorem c2_attempts_lifecycle (gCap uCap now fuel : Nat) (env : Nat → Outcome) (s : Store)
    (hwf : (s.books.map (fun x => x.id)).Nodup) (hinv : StoreInv s) :
    StoreInv (processQueue gCap uCap env now fuel s).store ∧
    List.Forall₂ bookEvolves s.books (processQueue gCap uCap env now fuel s).store.books ∧
    (∀ (maxA : Nat) (excl : List Nat) (b : Book),
      getNextPendingExcl s maxA excl = some b → b.status = "pending" ∧ b.attempts < maxA) ∧
    (∀ (job : Book) (eligible : List User) (o : Outcome) (st : QState),
      (st.store.books.map (fun x => x.id)).Nodup → job ∈ st.store.books →
      job.status = "pending" → job.attempts < MAX_ATTEMPTS →
      ((bookById (runItem uCap now job eligible o st).store job.id).map Book.status =
          some "failed" ↔
        attemptSucceeds job o = false ∧ job.attempts + 1 = MAX_ATTEMPTS)) := by
  refine ⟨?_, ?_, ?_, ?_⟩
  · unfold processQueue
    split_ifs with h
    · exact hinv
    · exact queueLoop_inv gCap uCap env now fuel _ hwf hinv
  · unfold processQueue
    split_ifs with h
    · exact forall2_refl_books bookEvolves_refl _
    · exact (queueLoop_frame_evolves gCap uCap env now fuel (initQState s uCap now) hwf).2.2.2
  · intro maxA excl b hb
    obtain ⟨_, h1, h2, _⟩ := getNextPendingExcl_spec hb
    exact ⟨h1, h2⟩
  · intro job eligible o st hwf2 hmem hp ha
    by_cases hs : attemptSucceeds job o = true
    · rw [runItem_success_book uCap now job eligible o st hwf2 hmem hs]
      constructor
      · intro hcon
        have hcon2 : ("downloaded" : String) = "failed" := by simpa [setDownloaded, bumpAttempt] using hcon
        exact absurd hcon2 (by decide)
      · rintro ⟨hfalse, _⟩
        rw [hs] at hfalse
        cases hfalse
    · have hfl : attemptSucceeds job o = false := by
        cases hx : attemptSucceeds job o
        · rfl
        · exact absurd hx hs
      rw [runItem_fail_book uCap now job eligible o st hwf2 hmem hfl]
      by_cases hm : MAX_ATTEMPTS ≤ job.attempts + 1
      · rw [if_pos hm]
        constructor
        · intro _
          exact ⟨hfl, by omega⟩
        · intro _
          simp
      · rw [if_neg hm]
        constructor
        · intro hcon
          have hcon2 : job.status = "failed" := by simpa [bumpAttempt] using hcon
          rw [hp] at hcon2
          exact absurd hcon2 (by decide)
        · rintro ⟨_, heq⟩
          exact absurd (heq ▸ Nat.le_refl MAX_ATTEMPTS) hm

theorem c2_witness :
    StoreInv (processQueue 50 10 envAllOk 86400 3 store1).store ∧
    List.Forall₂ bookEvolves store1.books
      (processQueue 50 10 envAllOk 86400 3 store1).store.books ∧
    (∀ (maxA : Nat) (excl : List Nat) (b : Book),
      getNextPendingExcl store1 maxA excl = some b →
        b.status = "pending" ∧ b.attempts < maxA) ∧
    (∀ (job : Book) (eligible : List User) (o : Outcome) (st : QState),
      (st.store.books.map (fun x => x.id)).Nodup → job ∈ st.store.books →
      job.status = "pending" → job.attempts < MAX_ATTEMPTS →
      ((bookById (runItem 10 86400 job eligible o st).store job.id).map Book.status =
          some "failed" ↔
        attemptSucceeds job o = false ∧ job.attempts + 1 = MAX_ATTEMPTS)) :=
  c2_attempts_lifecycle 50 10 86400 3 envAllOk store1 (by decide) (by decide)

/-- C3: when the count of books downloaded today has reached the global
daily cap, `processQueue` returns without touching the store or
performing any attempt; and because the count is re-checked before every
item, a run that starts under the cap never pushes the daily count past
it. -/
theorem c3_global_daily_cap (gCap uCap now fuel : Nat) (env : Nat → Outcome) (s : Store)
    (hwf : (s.books.map (fun x => x.id)).Nodup) :
    (gCap ≤ countDownloadsToday s now →
      processQueue gCap uCap env now fuel s =
        { store := s, processed := 0, succeeded := 0, failed := 0, skippedLimit := 0,
          skippedBookIds := [], rateLimited := [] }) ∧
    (countDownloadsToday s now ≤ gCap →
      countDownloadsToday (processQueue gCap uCap env now fuel s).store now ≤ gCap) := by
  constructor
  · intro h
    unfold processQueue
    rw [if_pos h]
  · intro h
    unfold processQueue
    split_ifs with hc
    · exact h
    · have hle := queueLoop_count_le gCap uCap env now fuel (initQState s uCap now) hwf
      exact le_trans hle (le_of_eq (max_eq_right h))

theorem c3_witness :
    (1 ≤ countDownloadsToday store2 1000 →
      processQueue 1 10 envAllOk 1000 5 store2 =
        { store := store2, processed := 0, succeeded := 0, failed := 0, skippedLimit := 0,
          skippedBookIds := [], rateLimited := [] }) ∧
    (countDownloadsToday store2 1000 ≤ 1 →
      countDownloadsToday (processQueue 1 10 envAllOk 1000 5 store2).store 1000 ≤ 1) :=
  c3_global_daily_cap 1 10 1000 5 envAllOk store2 (by decide)

/-- C10: the next-pending selection only ever returns a pending book
with attempts strictly below the bound and outside the exclusion set; a
pending book whose attempts have reached `MAX_ATTEMPTS` is never
mutated by a queue run (never re-attempted, never transitioned to
`failed`); and such a row is exactly what `incrementAttempts` leaves
behind when a crash prevents the follow-up status update. -/
theorem c10_exhausted_pending_guard (gCap uCap now fuel : Nat) (env : Nat → Outcome)
    (s : Store) (hwf : (s.books.map (fun x => x.id)).Nodup) :
    (∀ (maxA : Nat) (excl : List Nat) (b : Book),
      getNextPendingExcl s maxA excl = some b →
        b.attempts < maxA ∧ b.status = "pending" ∧ excl.contains b.id = false) ∧
    List.Forall₂ (fun b b2 => MAX_ATTEMPTS ≤ b.attempts → b2 = b)
      s.books (processQueue gCap uCap env now fuel s).store.books ∧
    (∀ (s0 : Store) (b0 : Book) (now0 : Nat),
      (s0.books.map (fun x => x.id)).Nodup → b0 ∈ s0.books → b0.status = "pending" →
      b0.attempts + 1 = MAX_ATTEMPTS →
      (bookById (incrementAttempts s0 b0.id now0) b0.id).map
        (fun b => (b.status, b.attempts)) = some ("pending", MAX_ATTEMPTS)) := by
  refine ⟨?_, ?_, ?_⟩
  · intro maxA excl b hb
    obtain ⟨_, h1, h2, h3⟩ := getNextPendingExcl_spec hb
    exact ⟨h2, h1, h3⟩
  · unfold processQueue
    split_ifs with h
    · exact forall2_refl_books (fun b => fun _ => rfl) _
    · exact List.Forall₂.imp (fun a b (hab : bookEvolves a b) => hab.2.2.2)
        (queueLoop_frame_evolves gCap uCap env now fuel (initQState s uCap now) hwf).2.2.2
  · intro s0 b0 now0 hwf0 hmem0 hp0 hcnt0
    unfold incrementAttempts
    rw [bookById_updateBook_self s0 b0 (bumpAttempt now0) (fun x => rfl) hwf0 hmem0]
    have h1 : (bumpAttempt now0 b0).status = "pending" := by
      show b0.status = "pending"
      exact hp0
    have h2 : (bumpAttempt now0 b0).attempts = MAX_ATTEMPTS := by
      show b0.attempts + 1 = MAX_ATTEMPTS
      exact hcnt0
    simp [h1, h2]

theorem c10_witness :
    (∀ (maxA : Nat) (excl : List Nat) (b : Book),
      getNextPendingExcl store1 maxA excl = some b →
        b.attempts < maxA ∧ b.status = "pending" ∧ excl.contains b.id = false) ∧
    List.Forall₂ (fun b b2 => MAX_ATTEMPTS ≤ b.attempts → b2 = b)
      store1.books (processQueue 50 10 envAllOk 86400 3 store1).store.books ∧
    (∀ (s0 : Store) (b0 : Book) (now0 : Nat),
      (s0.books.map (fun x => x.id)).Nodup → b0 ∈ s0.books → b0.status = "pending" →
      b0.attempts + 1 = MAX_ATTEMPTS →
      (bookById (incrementAttempts s0 b0.id now0) b0.id).map
        (fun b => (b.status, b.attempts)) = some ("pending", MAX_ATTEMPTS)) :=
  c10_exhausted_pending_guard 50 10 86400 3 envAllOk store1 (by decide)

/-! ## Per-destination rate limiting (C4) -/

theorem refreshRateLimited_cons (s : Store) (uCap now : Nat) (u : User) (rest : List User)
    (rl : List Nat) :
    refreshRateLimited s uCap now (u :: rest) rl =
      refreshRateLimited s uCap now rest
        (if !(rl.contains u.id) && decide (uCap ≤ countUserDownloadsToday s u.id now)
         then rl ++ [u.id] else rl) := rfl

theorem mem_refreshRateLimited (s : Store) (uCap now : Nat) :
    ∀ (eligible : List User) (rl : List Nat) (x : Nat),
      x ∈ refreshRateLimited s uCap now eligible rl ↔
        (x ∈ rl ∨ ∃ u ∈ eligible, u.id = x ∧ uCap ≤ countUserDownloadsToday s u.id now) := by
  intro eligible
  induction eligible with
  | nil =>
    intro rl x
    simp [refreshRateLimited]
  | cons u rest ih =>
    intro rl x
    rw [refreshRateLimited_cons]
    by_cases hguard : (!(rl.contains u.id) &&
        decide (uCap ≤ countUserDownloadsToday s u.id now)) = true
    · have hg := hguard
      simp only [Bool.and_eq_true, Bool.not_eq_true', decide_eq_true_eq] at hg
      rw [if_pos hguard, ih]
      constructor
      · rintro (hx | ⟨v, hv, hveq, hc⟩)
        · rcases List.mem_append.mp hx with hx2 | hx2
          · exact Or.inl hx2
          · exact Or.inr ⟨u, List.mem_cons_self u rest,
              (List.mem_singleton.mp hx2).symm, hg.2⟩
        · exact Or.inr ⟨v, List.mem_cons_of_mem u hv, hveq, hc⟩
      · rintro (hx | ⟨v, hvm, hveq, hc⟩)
        · exact Or.inl (List.mem_append.mpr (Or.inl hx))
        · rcases List.mem_cons.mp hvm with hvu | hv
          · refine Or.inl (List.mem_append.mpr (Or.inr (List.mem_singleton.mpr ?_)))
            rw [← hveq, hvu]
          · exact Or.inr ⟨v, hv, hveq, hc⟩
    · have hg : rl.contains u.id = true ∨ ¬(uCap ≤ countUserDownloadsToday s u.id now) := by
        by_cases h1 : rl.contains u.id = true
        · exact Or.inl h1
        · right
          intro h2
          apply hguard
          have h1f : rl.contains u.id = false := by
            cases hx : rl.contains u.id
            · rfl
            · exact absurd hx h1
          rw [h1f]
          simp [h2]
      rw [if_neg hguard, ih]
      constructor
      · rintro (hx | ⟨v, hv, hveq, hc⟩)
        · exact Or.inl hx
        · exact Or.inr ⟨v, List.mem_cons_of_mem u hv, hveq, hc⟩
      · rintro (hx | ⟨v, hvm, hveq, hc⟩)
        · exact Or.inl hx
        · rcases List.mem_cons.mp hvm with hvu | hv
          · rcases hg with hg | hg
            · refine Or.inl ?_
              have hux : u.id = x := by rw [← hveq, hvu]
              exact hux ▸ (list_contains_iff rl u.id).mp hg
            · rw [hvu] at hc
              exact absurd hc hg
          · exact Or.inr ⟨v, hv, hveq, hc⟩

theorem runItem_success_eq (uCap now : Nat) (job : Book) (eligible : List User) (o : Outcome)
    (st : QState) (hs : attemptSucceeds job o = true) :
    runItem uCap now job eligible o st =
      { st with
        store := markDownloaded (incrementAttempts st.store job.id now) (filenameOf job)
          job.id now,
        processed := st.processed + 1, succeeded := st.succeeded + 1,
        rateLimited := refreshRateLimited
          (markDownloaded (incrementAttempts st.store job.id now) (filenameOf job) job.id now)
          uCap now eligible st.rateLimited } := by
  unfold runItem
  rw [if_pos hs]

theorem success_userCount (s : Store) (job : Book) (fname : String) (now uid : Nat)
    (hwf : (s.books.map (fun x => x.id)).Nodup) (hmem : job ∈ s.books)
    (hp : job.status = "pending") :
    countUserDownloadsToday (markDownloaded (incrementAttempts s job.id now) fname job.id now)
        uid now =
      countUserDownloadsToday s uid now +
        (if s.user_books.contains (uid, job.id) = true then 1 else 0) := by
  unfold markDownloaded incrementAttempts
  rw [updateBook_comp s job.id (bumpAttempt now) (setDownloaded fname now) (fun x => rfl)]
  show (updateBook s job.id (fun b => setDownloaded fname now (bumpAttempt now b))).books.countP
      (fun b => isCountedToday b now && s.user_books.contains (uid, b.id)) =
    s.books.countP (fun b => isCountedToday b now && s.user_books.contains (uid, b.id)) +
      (if s.user_books.contains (uid, job.id) = true then 1 else 0)
  have hcnt := countP_updateBook
    (fun b => isCountedToday b now && s.user_books.contains (uid, b.id)) s job
    (fun b => setDownloaded fname now (bumpAttempt now b)) hwf hmem
  have hpj : (isCountedToday job now && s.user_books.contains (uid, job.id)) = false := by
    unfold isCountedToday
    rw [hp]
    simp
  have h1 : isCountedToday (setDownloaded fname now (bumpAttempt now job)) now = true := by
    unfold isCountedToday setDownloaded bumpAttempt
    simp
  have h2 : (setDownloaded fname now (bumpAttempt now job)).id = job.id := rfl
  simp only [hpj, Bool.false_eq_true, if_false, h1, h2, Bool.true_and] at hcnt
  by_cases hc : s.user_books.contains (uid, job.id) = true <;> simp [hc] at hcnt ⊢ <;> omega

theorem mem_eligible_iff (s : Store) (rl : List Nat) (bid : Nat) (u : User) :
    u ∈ (getUsersForBook s bid).filter (fun v => !(rl.contains v.id)) ↔
      (u ∈ s.users ∧ s.user_books.contains (u.id, bid) = true ∧
        rl.contains u.id = false) := by
  unfold getUsersForBook
  constructor
  · intro h
    have h2 := List.mem_filter.mp h
    have h3 := List.mem_filter.mp h2.1
    refine ⟨h3.1, h3.2, ?_⟩
    have h4 := h2.2
    simp only [Bool.not_eq_true'] at h4
    exact h4
  · rintro ⟨h1, h2, h3⟩
    refine List.mem_filter.mpr ⟨List.mem_filter.mpr ⟨h1, h2⟩, ?_⟩
    simp only [Bool.not_eq_true']
    exact h3

theorem initQState_rateLimited_spec (s : Store) (uCap now : Nat)
    (hwfU : (s.users.map (fun u => u.id)).Nodup) :
    ∀ u ∈ s.users,
      (u.id ∈ (initQState s uCap now).rateLimited ↔
        uCap ≤ countUserDownloadsToday s u.id now) := by
  intro u hu
  unfold initQState
  simp only [List.mem_map, List.mem_filter]
  constructor
  · rintro ⟨v, ⟨hv, hvc⟩, hveq⟩
    have hvu : v = u := List.inj_on_of_nodup_map hwfU hv hu hveq
    rw [← hvu]
    exact of_decide_eq_true hvc
  · intro hc
    exact ⟨u, ⟨hu, decide_eq_true hc⟩, rfl⟩

theorem queueLoop_skip_step (gCap uCap : Nat) (env : Nat → Outcome) (now fuel : Nat)
    (st : QState) (job : Book)
    (hcap : countDownloadsToday st.store now < gCap)
    (hsel : getNextPendingExcl st.store MAX_ATTEMPTS st.skippedBookIds = some job)
    (helig : ((getUsersForBook st.store job.id).filter
        (fun u => !(st.rateLimited.contains u.id))).isEmpty = true) :
    queueLoop gCap uCap env now (fuel + 1) st =
      queueLoop gCap uCap env now fuel
        { st with skippedBookIds := st.skippedBookIds ++ [job.id],
                  skippedLimit := st.skippedLimit + 1 } ∧
    (∀ b : Book, getNextPendingExcl st.store MAX_ATTEMPTS
        (st.skippedBookIds ++ [job.id]) = some b → b.id ≠ job.id) := by
  constructor
  · rw [queueLoop]
    rw [if_neg (not_le.mpr hcap)]
    simp only [hsel]
    rw [if_pos helig]
  · intro b hb heq
    obtain ⟨_, _, _, hni⟩ := getNextPendingExcl_spec hb
    rw [heq] at hni
    have hyes : (st.skippedBookIds ++ [job.id]).contains job.id = true := by
      rw [list_contains_iff]
      simp
    rw [hyes] at hni
    cases hni

theorem runItem_refresh_correct (uCap now : Nat) (job : Book) (o : Outcome) (st : QState)
    (hwfB : (st.store.books.map (fun x => x.id)).Nodup)
    (hwfU : (st.store.users.map (fun u => u.id)).Nodup)
    (hmem : job ∈ st.store.books) (hp : job.status = "pending")
    (hs : attemptSucceeds job o = true)
    (hrl : ∀ u ∈ st.store.users,
      (u.id ∈ st.rateLimited ↔ uCap ≤ countUserDownloadsToday st.store u.id now)) :
    ∀ u ∈ st.store.users,
      (u.id ∈ (runItem uCap now job
          ((getUsersForBook st.store job.id).filter
            (fun v => !(st.rateLimited.contains v.id))) o st).rateLimited ↔
        uCap ≤ countUserDownloadsToday (runItem uCap now job
          ((getUsersForBook st.store job.id).filter
            (fun v => !(st.rateLimited.contains v.id))) o st).store u.id now) := by
  intro u hu
  rw [runItem_success_eq uCap now job _ o st hs]
  show u.id ∈ refreshRateLimited
      (markDownloaded (incrementAttempts st.store job.id now) (filenameOf job) job.id now)
      uCap now ((getUsersForBook st.store job.id).filter
        (fun v => !(st.rateLimited.contains v.id))) st.rateLimited ↔
    uCap ≤ countUserDownloadsToday
      (markDownloaded (incrementAttempts st.store job.id now) (filenameOf job) job.id now)
      u.id now
  have hcnt : ∀ uid, countUserDownloadsToday
      (markDownloaded (incrementAttempts st.store job.id now) (filenameOf job) job.id now)
      uid now =
      countUserDownloadsToday st.store uid now +
        (if st.store.user_books.contains (uid, job.id) = true then 1 else 0) :=
    fun uid => success_userCount st.store job (filenameOf job) now uid hwfB hmem hp
  rw [mem_refreshRateLimited]
  by_cases hlink : st.store.user_books.contains (u.id, job.id) = true
  · by_cases hin : u.id ∈ st.rateLimited
    · constructor
      · intro _
        have hold := (hrl u hu).mp hin
        rw [hcnt u.id]
        omega
      · intro _
        exact Or.inl hin
    · have huel : u ∈ (getUsersForBook st.store job.id).filter
          (fun v => !(st.rateLimited.contains v.id)) := by
        rw [mem_eligible_iff]
        refine ⟨hu, hlink, ?_⟩
        cases hx : st.rateLimited.contains u.id
        · rfl
        · exact absurd ((list_contains_iff _ _).mp hx) hin
      constructor
      · rintro (h | ⟨v, hv, hveq, hc⟩)
        · exact absurd h hin
        · have hvu : v ∈ st.store.users := ((mem_eligible_iff _ _ _ _).mp hv).1
          have hvu2 : v = u := List.inj_on_of_nodup_map hwfU hvu hu hveq
          rw [← hvu2]
          exact hc
      · intro hc
        exact Or.inr ⟨u, huel, rfl, hc⟩
  · have hlink2 : st.store.user_books.contains (u.id, job.id) = false := by
      cases hx : st.store.user_books.contains (u.id, job.id)
      · rfl
      · exact absurd hx hlink
    have hsame : countUserDownloadsToday
        (markDownloaded (incrementAttempts st.store job.id now) (filenameOf job) job.id now)
        u.id now = countUserDownloadsToday st.store u.id now := by
      rw [hcnt u.id, hlink2]
      simp
    rw [hsame]
    constructor
    · rintro (h | ⟨v, hv, hveq, hc⟩)
      · exact (hrl u hu).mp h
      · have hvfacts := (mem_eligible_iff st.store st.rateLimited job.id v).mp hv
        have hvu2 : v = u := List.inj_on_of_nodup_map hwfU hvfacts.1 hu hveq
        rw [hvu2] at hvfacts
        exact absurd hvfacts.2.1 hlink
    · intro hc
      exact Or.inl ((hrl u hu).mpr hc)

/-- C4: the rate-limited user set is computed once at cycle start and
characterizes exactly the users at or over their daily cap; a selected
book all of whose linked users are rate-limited is skipped — the loop
recurses with only the exclusion list and skip counter changed (store,
processed and attempt counters untouched) and the next selection cannot
return the same book; and after each successful download the refreshed
set again characterizes exactly the users at or over their cap against
the updated counts. -/
theorem c4_rate_limited_skip_and_refresh :
    (∀ (s : Store) (uCap now : Nat), (s.users.map (fun u => u.id)).Nodup →
      ∀ u ∈ s.users,
        (u.id ∈ (initQState s uCap now).rateLimited ↔
          uCap ≤ countUserDownloadsToday s u.id now)) ∧
    (∀ (gCap uCap : Nat) (env : Nat → Outcome) (now fuel : Nat) (st : QState) (job : Book),
      countDownloadsToday st.store now < gCap →
      getNextPendingExcl st.store MAX_ATTEMPTS st.skippedBookIds = some job →
      ((getUsersForBook st.store job.id).filter
        (fun u => !(st.rateLimited.contains u.id))).isEmpty = true →
      (queueLoop gCap uCap env now (fuel + 1) st =
        queueLoop gCap uCap env now fuel
          { st with skippedBookIds := st.skippedBookIds ++ [job.id],
                    skippedLimit := st.skippedLimit + 1 } ∧
      (∀ b : Book, getNextPendingExcl st.store MAX_ATTEMPTS
          (st.skippedBookIds ++ [job.id]) = some b → b.id ≠ job.id))) ∧
    (∀ (uCap now : Nat) (job : Book) (o : Outcome) (st : QState),
      (st.store.books.map (fun x => x.id)).Nodup →
      (st.store.users.map (fun u => u.id)).Nodup →
      job ∈ st.store.books → job.status = "pending" →
      attemptSucceeds job o = true →
      (∀ u ∈ st.store.users,
        (u.id ∈ st.rateLimited ↔ uCap ≤ countUserDownloadsToday st.store u.id now)) →
      ∀ u ∈ st.store.users,
        (u.id ∈ (runItem uCap now job
            ((getUsersForBook st.store job.id).filter
              (fun v => !(st.rateLimited.contains v.id))) o st).rateLimited ↔
          uCap ≤ countUserDownloadsToday (runItem uCap now job
            ((getUsersForBook st.store job.id).filter
              (fun v => !(st.rateLimited.contains v.id))) o st).store u.id now)) :=
  ⟨fun s uCap now hwfU => initQState_rateLimited_spec s uCap now hwfU,
   fun gCap uCap env now fuel st job hcap hsel helig =>
     queueLoop_skip_step gCap uCap env now fuel st job hcap hsel helig,
   fun uCap now job o st hwfB hwfU hmem hp hs hrl =>
     runItem_refresh_correct uCap now job o st hwfB hwfU hmem hp hs hrl⟩

/-- Witness for C4 at a concrete input: initial rate-limited set over
`store2`, whose single user has one download today. -/
theorem c4_witness :
    ∀ u ∈ store2.users,
      (u.id ∈ (initQState store2 1 1000).rateLimited ↔
        1 ≤ countUserDownloadsToday store2 u.id 1000) :=
  c4_rate_limited_skip_and_refresh.1 store2 1 1000 (by decide)
